import Mathlib

/-!
Verification of the frida-compile bundler core (`src/compiler.ts`, given here as
`src/src/system.ts`, final revision) against its natural-language specification.

The development shallowly embeds the bundler: JavaScript `Map`/`Set` objects
become insertion-ordered association lists, the TypeScript `System` interface
becomes a record of functions, parsed source files are abstracted to the list
of references the module scanner extracts from them, and exceptions become
`Except`/`Option` values.  JavaScript strings are modelled by Lean `String`
(character-based rather than UTF-16-code-unit-based; all paths and tokens
involved are ASCII, where the two coincide).
-/

set_option maxRecDepth 400000

namespace FridaCompile

/-! ## Insertion-ordered maps and sets (JavaScript `Map` / `Set`) -/

/-- Lookup in an insertion-ordered association list, like `Map.prototype.get`. -/
def mapGet {α : Type} (m : List (String × α)) (k : String) : Option α :=
  match m with
  | [] => none
  | (k2, v) :: rest => if k2 = k then some v else mapGet rest k

/-- `Map.prototype.set`: updates the value in place when the key is present
(keeping its insertion position), otherwise appends a new entry. -/
def mapSet {α : Type} (m : List (String × α)) (k : String) (v : α) : List (String × α) :=
  match m with
  | [] => [(k, v)]
  | (k2, v2) :: rest => if k2 = k then (k2, v) :: rest else (k2, v2) :: mapSet rest k v

/-- `Map.prototype.has`. -/
def mapHas {α : Type} (m : List (String × α)) (k : String) : Bool :=
  (mapGet m k).isSome

/-- `Map.prototype.delete` (removes the entry for the key, if any). -/
def mapDelete {α : Type} (m : List (String × α)) (k : String) : List (String × α) :=
  m.filter (fun e => !(e.1 = k : Bool))

/-- `Map.prototype.keys`, in insertion order. -/
def mapKeys {α : Type} (m : List (String × α)) : List String :=
  m.map (·.1)

/-- `Set.prototype.add`: appends unless already present. -/
def setAdd (s : List String) (k : String) : List String :=
  if s.contains k then s else s ++ [k]

/-! ## String sorting (JavaScript `Array.prototype.sort` on strings) -/

/-- Lexicographic order on character lists. -/
def charListLe (xs ys : List Char) : Bool :=
  match xs, ys with
  | [], _ => true
  | x :: xr, y :: yr => if x = y then charListLe xr yr else decide (x < y)
  | _ :: _, [] => false

/-- Boolean string order used for sorting (lexicographic on characters, which
agrees with JavaScript's code-unit order on the ASCII names at play). -/
def strLeB (a b : String) : Bool :=
  charListLe a.data b.data

/-- Insert into a sorted list. -/
def insertSorted (x : String) : List String → List String
  | [] => [x]
  | y :: ys => if strLeB x y then x :: y :: ys else y :: insertSorted x ys

/-- `Array.prototype.sort()` on a list of strings (insertion sort). -/
def sortStrings (l : List String) : List String :=
  l.foldr insertSorted []

/-! ## String primitives mirroring the JavaScript ones -/

/-- `String.prototype.startsWith`, via character lists. -/
def strStartsWith (s pre : String) : Bool :=
  pre.data.isPrefixOf s.data

/-- `String.prototype.endsWith`, via character lists. -/
def strEndsWith (s suf : String) : Bool :=
  suf.data.isSuffixOf s.data

/-- Index (in characters) of the last occurrence of `c`, like `lastIndexOf`. -/
def lastIndexOfChar (s : String) (c : Char) : Option Nat :=
  let idxs := (List.range s.data.length).filter (fun i => s.data.getD i ' ' = c)
  idxs.getLast?

/-- `substring`-style take of the first `n` characters. -/
def strTake (s : String) (n : Nat) : String :=
  String.mk (s.data.take n)

/-- `substring`-style drop of the first `n` characters. -/
def strDrop (s : String) (n : Nat) : String :=
  String.mk (s.data.drop n)

/-- Split a character list on a separator character. -/
def splitOnCharGo (sep : Char) : List Char → List Char → List String
  | [], acc => [String.mk acc.reverse]
  | c :: cs, acc =>
    if c = sep then String.mk acc.reverse :: splitOnCharGo sep cs []
    else splitOnCharGo sep cs (c :: acc)

/-- `String.prototype.split` with a one-character separator. -/
def strSplitOnChar (s : String) (sep : Char) : List String :=
  splitOnCharGo sep s.data []

/-- JavaScript whitespace trimmed by `String.prototype.trim` (ASCII part). -/
def jsWsChar (c : Char) : Bool :=
  c = ' ' || c = '\t' || c = '\n' || c = '\r' || c = '\x0c' || c = '\x0b'

/-- `String.prototype.trim`. -/
def jsTrim (s : String) : String :=
  String.mk ((s.data.dropWhile jsWsChar).reverse.dropWhile jsWsChar).reverse

/-- Decimal digits to a natural number, `none` unless the whole string is a
nonempty digit run. -/
def strToNatQ (s : String) : Option Nat :=
  if s.data ≠ [] && s.data.all Char.isDigit then
    some (s.data.foldl (fun n c => n * 10 + (c.toNat - '0'.toNat)) 0)
  else none

/-- `path.substring(0, path.lastIndexOf(".")) + "." + ext` — note that a path
without a dot yields `"" + "." + ext` because `lastIndexOf` returns `-1` and
`substring(0, -1)` clamps to the empty string. -/
def changeFileExtension (path ext : String) : String :=
  match lastIndexOfChar path '.' with
  | some i => strTake path i ++ "." ++ ext
  | none => "" ++ "." ++ ext

/-! ## POSIX path utilities (the `@frida/crosspath` operations used by the core,
behaving like Node's `path.posix`) -/

/-- `crosspath.isAbsolute` for POSIX-form paths. -/
def isAbsolutePath (s : String) : Bool :=
  strStartsWith s "/"

/-- One step of POSIX-path segment normalization (`.` and `..` handling). -/
def normFold (isAbs : Bool) (acc : List String) (seg : String) : List String :=
  if seg = "." then acc
  else if seg = ".." then
    match acc.getLast? with
    | some last => if last = ".." then acc ++ [".."] else acc.dropLast
    | none => if isAbs then acc else [".."]
  else acc ++ [seg]

/-- `path.posix.normalize`. -/
def posixNormalize (p : String) : String :=
  if p = "" then "." else
  let isAbs := isAbsolutePath p
  let hasTrail := strEndsWith p "/" && p.length > 1
  let segs := (strSplitOnChar p '/').filter (fun s => !(s = "" : Bool))
  let stack := segs.foldl (normFold isAbs) []
  let body := String.intercalate "/" stack
  let core := if isAbs then "/" ++ body else body
  let core := if core = "" then "." else core
  if hasTrail && !(core = "/" : Bool) && !(body = "" : Bool) then core ++ "/" else core

/-- `path.posix.join`: drop empty parts, join with `/`, normalize. -/
def posixJoin (parts : List String) : String :=
  let nonempty := parts.filter (fun s => !(s = "" : Bool))
  if nonempty = [] then "." else posixNormalize (String.intercalate "/" nonempty)

/-- Binary join. -/
def posixJoin2 (a b : String) : String :=
  posixJoin [a, b]

/-- `path.posix.dirname`. -/
def posixDirname (p : String) : String :=
  if p = "" then "." else
  let stripped := String.mk (p.data.reverse.dropWhile (fun c => c = '/')).reverse
  if stripped = "" then "/" else
  match lastIndexOfChar stripped '/' with
  | none => "."
  | some 0 => "/"
  | some i => strTake stripped i

/-- `path.posix.basename` (no extension argument). -/
def posixBasename (p : String) : String :=
  let stripped := String.mk (p.data.reverse.dropWhile (fun c => c = '/')).reverse
  match lastIndexOfChar stripped '/' with
  | none => stripped
  | some i => strDrop stripped (i + 1)

/-! ## JSON values and `JSON.parse`

The host's `JSON.parse` is embedded as an executable recursive-descent parser
producing `JSValue`.  Numbers keep their raw source text: the bundler never
inspects numeric values, only key structure and verbatim text.  Duplicate
object keys follow the JavaScript semantics: the first occurrence fixes the
position, the last occurrence fixes the value. -/

inductive JSValue where
  | null
  | bool (b : Bool)
  | num (raw : String)
  | str (s : String)
  | arr (elems : List JSValue)
  | obj (fields : List (String × JSValue))

/-- JSON whitespace. -/
def jsonWs (c : Char) : Bool :=
  c = ' ' || c = '\t' || c = '\n' || c = '\r'

/-- Skip JSON whitespace. -/
def skipWs : List Char → List Char
  | [] => []
  | c :: cs => if jsonWs c then skipWs cs else c :: cs

/-- Hex digit value (code-point arithmetic: `0`–`9`, `a`–`f`, `A`–`F`). -/
def hexVal (c : Char) : Option Nat :=
  let n := c.toNat
  if 48 ≤ n && n ≤ 57 then some (n - 48)
  else if 97 ≤ n && n ≤ 102 then some (n - 87)
  else if 65 ≤ n && n ≤ 70 then some (n - 55)
  else none

/-- Parse the remainder of a JSON string literal (after the opening quote). -/
def parseStringRest : Nat → List Char → List Char → Option (String × List Char)
  | 0, _, _ => none
  | _ + 1, [], _ => none
  | fuel + 1, c :: cs, acc =>
    if c = '"' then some (String.mk acc.reverse, cs)
    else if c = '\\' then
      match cs with
      | [] => none
      | e :: cs2 =>
        if e = '"' then parseStringRest fuel cs2 ('"' :: acc)
        else if e = '\\' then parseStringRest fuel cs2 ('\\' :: acc)
        else if e = '/' then parseStringRest fuel cs2 ('/' :: acc)
        else if e = 'b' then parseStringRest fuel cs2 ('\x08' :: acc)
        else if e = 'f' then parseStringRest fuel cs2 ('\x0c' :: acc)
        else if e = 'n' then parseStringRest fuel cs2 ('\n' :: acc)
        else if e = 'r' then parseStringRest fuel cs2 ('\r' :: acc)
        else if e = 't' then parseStringRest fuel cs2 ('\t' :: acc)
        else if e = 'u' then
          match cs2 with
          | h1 :: h2 :: h3 :: h4 :: cs3 =>
            match hexVal h1, hexVal h2, hexVal h3, hexVal h4 with
            | some a, some b, some c3, some d =>
              parseStringRest fuel cs3 (Char.ofNat (a * 4096 + b * 256 + c3 * 16 + d) :: acc)
            | _, _, _, _ => none
          | _ => none
        else none
    else if c.toNat < 32 then none
    else parseStringRest fuel cs (c :: acc)

/-- Take a run of decimal digits. -/
def takeDigits (cs : List Char) : List Char × List Char :=
  (cs.takeWhile Char.isDigit, cs.dropWhile Char.isDigit)

/-- Parse a JSON number, returning it as raw text. -/
def parseNumber (cs : List Char) : Option (String × List Char) :=
  let (sign, cs1) := match cs with
    | '-' :: rest => (['-'], rest)
    | _ => ([], cs)
  match cs1 with
  | [] => none
  | c :: _ =>
    if !c.isDigit then none else
    let (intPart, cs2) :=
      match cs1 with
      | '0' :: rest => (['0'], rest)
      | _ => takeDigits cs1
    let (fracPart, cs3) :=
      match cs2 with
      | '.' :: rest =>
        let (ds, rest2) := takeDigits rest
        if ds = [] then ([], cs2) else ('.' :: ds, rest2)
      | _ => ([], cs2)
    let badFrac := match cs2 with
      | '.' :: rest => (takeDigits rest).1.isEmpty
      | _ => false
    if badFrac then none else
    let (expPart, cs4) :=
      match cs3 with
      | e :: rest =>
        if e = 'e' || e = 'E' then
          let (sgn, rest2) := match rest with
            | '+' :: r => (['+'], r)
            | '-' :: r => (['-'], r)
            | _ => ([], rest)
          let (ds, rest3) := takeDigits rest2
          if ds = [] then ([], cs3) else (e :: (sgn ++ ds), rest3)
        else ([], cs3)
      | [] => ([], cs3)
    let badExp := match cs3 with
      | e :: rest =>
        (e = 'e' || e = 'E') &&
          ((match rest with
            | '+' :: r => takeDigits r
            | '-' :: r => takeDigits r
            | _ => takeDigits rest).1.isEmpty)
      | [] => false
    if badExp then none
    else some (String.mk (sign ++ intPart ++ fracPart ++ expPart), cs4)

/-- Task selector for the recursive-descent parser: a whole value, the element
list of an array (after `[`), or the member list of an object (after the
opening brace), with the elements collected so far. -/
inductive PTask where
  | value
  | elems (acc : List JSValue)
  | members (acc : List (String × JSValue))

/-- The recursive-descent parser, structurally recursive on fuel so that it
reduces definitionally. -/
def parseJson : Nat → PTask → List Char → Option (JSValue × List Char)
  | 0, _, _ => none
  | fuel + 1, .value, cs =>
    match skipWs cs with
    | [] => none
    | c :: rest =>
      if c = 'n' then
        match rest with
        | 'u' :: 'l' :: 'l' :: rest2 => some (.null, rest2)
        | _ => none
      else if c = 't' then
        match rest with
        | 'r' :: 'u' :: 'e' :: rest2 => some (.bool true, rest2)
        | _ => none
      else if c = 'f' then
        match rest with
        | 'a' :: 'l' :: 's' :: 'e' :: rest2 => some (.bool false, rest2)
        | _ => none
      else if c = '"' then
        match parseStringRest (rest.length + 1) rest [] with
        | some (s, rest2) => some (.str s, rest2)
        | none => none
      else if c = '[' then
        match skipWs rest with
        | ']' :: rest2 => some (.arr [], rest2)
        | _ => parseJson fuel (.elems []) rest
      else if c = '\x7b' then
        match skipWs rest with
        | '\x7d' :: rest2 => some (.obj [], rest2)
        | _ => parseJson fuel (.members []) rest
      else
        match parseNumber (c :: rest) with
        | some (raw, rest2) => some (.num raw, rest2)
        | none => none
  | fuel + 1, .elems acc, cs =>
    match parseJson fuel .value cs with
    | none => none
    | some (v, rest) =>
      match skipWs rest with
      | ',' :: rest2 => parseJson fuel (.elems (v :: acc)) rest2
      | ']' :: rest2 => some (.arr (v :: acc).reverse, rest2)
      | _ => none
  | fuel + 1, .members acc, cs =>
    match skipWs cs with
    | '"' :: rest =>
      match parseStringRest (rest.length + 1) rest [] with
      | none => none
      | some (k, rest2) =>
        match skipWs rest2 with
        | ':' :: rest3 =>
          match parseJson fuel .value rest3 with
          | none => none
          | some (v, rest4) =>
            let acc2 := mapSet acc k v
            match skipWs rest4 with
            | ',' :: rest5 => parseJson fuel (.members acc2) rest5
            | '\x7d' :: rest5 => some (.obj acc2, rest5)
            | _ => none
        | _ => none
    | _ => none

/-- `JSON.parse`: `none` models a thrown `SyntaxError`. -/
def jsonParse (s : String) : Option JSValue :=
  match parseJson (2 * s.data.length + 4) .value s.data with
  | some (v, rest) => if skipWs rest = [] then some v else none
  | none => none

/-! ## JavaScript object semantics needed by the bundler -/

/-- Property access `v.k` as used on parsed JSON metadata: accessing a property
of `null` throws (`.error ()`); objects yield the field when present; any other
value yields `undefined` (`none`). -/
def jsGetField : JSValue → String → Except Unit (Option JSValue)
  | .null, _ => .error ()
  | .obj fs, k => .ok (mapGet fs k)
  | _, _ => .ok none

/-- The nullish-coalescing view of a field: `none` when the field is absent
(`undefined`) or `null`, so `a ?? b` is `(jsNullish a).getD b`-shaped. -/
def jsNullish (v : Option JSValue) : Option JSValue :=
  match v with
  | none => none
  | some .null => none
  | some v => some v

/-- A canonical array-index property key (`"0"`, `"1"`, … below `2^32 - 1`). -/
def isArrayIndexKey (s : String) : Bool :=
  match strToNatQ s with
  | some n => decide (toString n = s) && decide (n < 4294967295)
  | none => false

/-- Insert into a sorted list of naturals. -/
def insertNatSorted (x : Nat) : List Nat → List Nat
  | [] => [x]
  | y :: ys => if x ≤ y then x :: y :: ys else y :: insertNatSorted x ys

/-- Ascending sort of naturals. -/
def sortNats (l : List Nat) : List Nat :=
  l.foldr insertNatSorted []

/-- `Object.keys`: for objects, canonical array-index keys first in ascending
numeric order, then the remaining keys in insertion order; for arrays, the
index strings; otherwise empty. -/
def jsObjectKeys : JSValue → List String
  | .obj fs =>
    let ks := fs.map (·.1)
    let idxKeys := sortNats ((ks.filter isArrayIndexKey).map (fun s => (strToNatQ s).getD 0))
    idxKeys.map toString ++ ks.filter (fun k => !isArrayIndexKey k)
  | .arr es => (List.range es.length).map toString
  | _ => []

/-- `Object.prototype.hasOwnProperty` for parsed JSON values (arrays also own
their `length`). -/
def jsHasOwn (v : JSValue) (k : String) : Bool :=
  match v with
  | .obj fs => (fs.map (·.1)).contains k
  | .arr es => ((List.range es.length).map toString).contains k || k = "length"
  | _ => false

/-- `typeof data === "object" && data !== null` for parsed JSON values. -/
def jsIsObjectLike : JSValue → Bool
  | .obj _ => true
  | .arr _ => true
  | _ => false

/-! ## Identifier classification (`@frida/reserved-words`) -/

/-- ASCII approximation of the identifier-start grammar. -/
def isIdentStart (c : Char) : Bool :=
  c.isAlpha || c = '_' || c = '$'

/-- Identifier-continue characters. -/
def isIdentCont (c : Char) : Bool :=
  isIdentStart c || c.isDigit

/-- Whether a string satisfies the identifier grammar. -/
def isIdentifierName (s : String) : Bool :=
  match s.data with
  | [] => false
  | c :: cs => isIdentStart c && cs.all isIdentCont

/-- ES2015 keywords and literals that can never be binding identifiers. -/
def es2015Keywords : List String :=
  ["await", "break", "case", "catch", "class", "const", "continue", "debugger",
   "default", "delete", "do", "else", "enum", "export", "extends", "false",
   "finally", "for", "function", "if", "import", "in", "instanceof", "new",
   "null", "return", "super", "switch", "this", "throw", "true", "try",
   "typeof", "var", "void", "while", "with", "yield"]

/-- Words additionally reserved for bindings in strict-mode ES2015 code. -/
def es2015StrictReserved : List String :=
  ["implements", "interface", "let", "package", "private", "protected",
   "public", "static"]

/-- Modelled from the spec: the `check` function of the external
`@frida/reserved-words` package (a dependency whose source is not part of this
repository).  Per §4.6, a key becomes a named export iff it satisfies the
identifier grammar and is not a reserved word at the requested level when used
as a binding, and the synthesizer keeps exactly the keys on which `check` is
false; so `check` holds exactly when the word fails the identifier grammar or
is reserved (including strict-mode reservations when `strictMode` is set). -/
def checkIdentifier (word : String) (_dialect : String) (strictMode : Bool) : Bool :=
  !(isIdentifierName word) || es2015Keywords.contains word ||
    (strictMode && es2015StrictReserved.contains word)

/-! ## JSON-to-module synthesis (`jsonToModule`) -/

/-- The `while (obj.hasOwnProperty(candidate))` loop choosing the binding
identifier: candidates are `d`, `d1`, `d2`, …  The fuel strictly exceeds the
number of own properties, so exhaustion is unreachable (the candidates are
pairwise distinct). -/
def chooseIdentGo (own : String → Bool) : Nat → Nat → String → String
  | 0, _, cand => cand
  | fuel + 1, serial, cand =>
    if own cand then chooseIdentGo own fuel (serial + 1) ("d" ++ toString serial) else cand

/-- The candidate stream `d`, `d1`, `d2`, … -/
def identCandidate : Nat → String
  | 0 => "d"
  | n + 1 => "d" ++ toString (n + 1)

/-- The binding identifier the synthesizer picks for an object-like document
(the loop above, started at `serial = 1`, candidate `d`). -/
def jsonModuleBinding (data : JSValue) : String :=
  chooseIdentGo (jsHasOwn data) ((jsObjectKeys data).length + 2) 1 "d"

/-- The keys of an object-like document that become named exports: exactly the
own keys on which `checkIdentifier` is false. -/
def jsonNamedExports (data : JSValue) : List String :=
  (jsObjectKeys data).filter (fun member => !(checkIdentifier member "es2015" true))

/-- The lines of the synthesized module for an object-like document. -/
def jsonModuleParts (json : String) (data : JSValue) : List String :=
  let identifier := jsonModuleBinding data
  ["const " ++ identifier ++ " = " ++ jsTrim json ++ ";",
   "export default " ++ identifier ++ ";"] ++
    (jsonNamedExports data).map (fun member =>
      "export const " ++ member ++ " = " ++ identifier ++ "." ++ member ++ ";")

/-- `jsonToModule` from the source; `.error ()` models the `SyntaxError` thrown
by `JSON.parse` on input that is not valid JSON. -/
def jsonToModule (json : String) : Except Unit String :=
  match jsonParse json with
  | none => .error ()
  | some data =>
    if jsIsObjectLike data then
      .ok (String.intercalate "\n" (jsonModuleParts json data))
    else
      .ok ("export default " ++ jsTrim json ++ ";")

/-! ## Module-type detection (`detectModuleType`) -/

inductive ModuleType where
  | esm
  | cjs
deriving DecidableEq

/-- The upward walk of `detectModuleType`: read the first `package.json`,
classify `esm` iff `type == "module"` or a `module` field is present (even
`null`); `cjs` when the walk reaches a fixed point of `dirname`.  Errors model
a `JSON.parse` throw or property access on `null`. -/
def detectModuleTypeGo (readFile : String → Option String) : Nat → String → Except Unit ModuleType
  | 0, _ => .ok .cjs
  | fuel + 1, curDir =>
    match readFile (posixJoin2 curDir "package.json") with
    | some rawPkgMeta =>
      match jsonParse rawPkgMeta with
      | none => .error ()
      | some pkgMeta => do
        let ty ← jsGetField pkgMeta "type"
        let mo ← jsGetField pkgMeta "module"
        let isModuleTy := match ty with
          | some (.str s) => s = "module"
          | _ => false
        if isModuleTy || mo.isSome then .ok .esm else .ok .cjs
    | none =>
      let nextDir := posixDirname curDir
      if nextDir = curDir then .ok .cjs
      else detectModuleTypeGo readFile fuel nextDir

/-- `detectModuleType(modPath, sys)`. -/
def detectModuleType (modPath : String) (readFile : String → Option String) : Except Unit ModuleType :=
  detectModuleTypeGo readFile (modPath.length + 2) (posixDirname modPath)

/-! ## The asset catalog and system interface -/

/-- The `Assets` record. -/
structure AssetsM where
  projectNodeModulesDir : String
  compilerNodeModulesDir : String
  shimDir : String
  shims : List (String × String)

/-- The slice of `ts.System` the bundler core reads (after `writeFile` has been
redirected into the in-memory output map); `base64decode` is optional, as in
the source (`system.base64decode?.(…)`). -/
structure SysModel where
  fileExists : String → Bool
  directoryExists : String → Bool
  readFile : String → Option String
  base64decode : Option (String → Option String)

/-! ## Module resolution (`resolveModuleReference`) -/

/-- The package-entrypoint indirection applied when the candidate path is a
directory: `package.json`'s `module`, falling back to `main`, falling back to
`index.js` (nullish-coalescing, so a `null` field also falls through); a
directory entrypoint gets `index.js` appended; errors model the JavaScript
throws (unparsable manifest, property access on `null` metadata, a non-string
entry handed to `join`). -/
def packageDirStep (sys : SysModel) (modPath : String) (needsAlias : Bool) :
    Except Unit (String × Bool) :=
  if sys.directoryExists modPath then
    match sys.readFile (posixJoin2 modPath "package.json") with
    | some rawPkgMeta =>
      match jsonParse rawPkgMeta with
      | none => .error ()
      | some pkgMeta => do
        let mo ← jsGetField pkgMeta "module"
        let ma ← jsGetField pkgMeta "main"
        let pkgMainV := match jsNullish mo with
          | some v => v
          | none => match jsNullish ma with
            | some v => v
            | none => .str "index.js"
        match pkgMainV with
        | .str pkgMain =>
          let pkgEntrypoint := posixJoin2 modPath pkgMain
          let pkgEntrypoint :=
            if sys.directoryExists pkgEntrypoint then posixJoin2 pkgEntrypoint "index.js"
            else pkgEntrypoint
          .ok (pkgEntrypoint, true)
        | _ => .error ()
    | none => .ok (posixJoin2 modPath "index.js", needsAlias)
  else .ok (modPath, needsAlias)

/-- The final file-existence step: take the path if it is a file, else append
`.js` and retry once, else fail (`Unresolvable`). -/
def fileExistenceStep (sys : SysModel) (modPath : String) (needsAlias : Bool) :
    Except Unit (String × Bool) :=
  if sys.fileExists modPath then .ok (modPath, needsAlias)
  else
    let modPath2 := modPath ++ ".js"
    if sys.fileExists modPath2 then .ok (modPath2, needsAlias) else .error ()

/-- The front half of `resolveModuleReference`: the initial `(modPath,
needsAlias)` before the directory / file-existence steps.  When the first
token is `@`-scoped but there is no second token, JavaScript coerces
`undefined` into the string `"undefined"`; the embedding reproduces that. -/
def resolveStart (compilerRoot : String) (refName requesterPath : String)
    (assets : AssetsM) : String × Bool :=
  if isAbsolutePath refName then (refName, false)
  else
    let tokens := strSplitOnChar refName '/'
    let split :=
      if strStartsWith (tokens.headD "") "@" then
        ((tokens.headD "") ++ "/" ++
          (match tokens.get? 1 with | some t => t | none => "undefined"), tokens.drop 2)
      else (tokens.headD "", tokens.drop 1)
    let pkgName := split.1
    let subPath := split.2
    match mapGet assets.shims pkgName with
    | some shimPath =>
      if strEndsWith shimPath ".js" then (shimPath, true)
      else (posixJoin (shimPath :: subPath), true)
    | none =>
      let linkedCompilerRoot := posixJoin2 assets.projectNodeModulesDir "frida-compile"
      if strStartsWith requesterPath compilerRoot ||
          strStartsWith requesterPath linkedCompilerRoot ||
          strStartsWith requesterPath assets.shimDir then
        (posixJoin (assets.shimDir :: tokens), subPath.length > 0)
      else
        (posixJoin (assets.projectNodeModulesDir :: tokens), subPath.length > 0)

/-- `resolveModuleReference` from the source.  The result is
`(resolved path, needs-alias)`; `.error ()` models the `unable to resolve
module` throw (any throw is caught by the drain loop). -/
def resolveModuleReference (compilerRoot : String) (refName requesterPath : String)
    (assets : AssetsM) (sys : SysModel) : Except Unit (String × Bool) :=
  let start := resolveStart compilerRoot refName requesterPath assets
  match packageDirStep sys start.1 start.2 with
  | .error e => .error e
  | .ok (p, a) => fileExistenceStep sys p a

/-! ### The resolver as the spec states it (§4.1, first match wins) -/

/-- Spec §4.1 step 2: tokenize on `/` and split into package name and subpath
(the `@`-scope joining shares the JavaScript `undefined` coercion with the
implementation, which the spec's "first two segments joined" leaves open). -/
def specSplitPackage (name : String) : String × List String :=
  let tokens := strSplitOnChar name '/'
  if strStartsWith (tokens.headD "") "@" then
    ((tokens.headD "") ++ "/" ++
      (match tokens.get? 1 with | some t => t | none => "undefined"), tokens.drop 2)
  else (tokens.headD "", tokens.drop 1)

/-- Spec §4.1 step 3: a shim-catalog hit maps to the shim root; a root ending
in `.js` is final, otherwise the root is joined with the subpath;
`needs-alias = true`. -/
def specShimHit (shimRoot : String) (subPath : List String) : String × Bool :=
  if strEndsWith shimRoot ".js" then (shimRoot, true)
  else (posixJoin (shimRoot :: subPath), true)

/-- Spec §4.1 step 4: on a shim miss, choose a base — the shim root when the
referrer lies inside the compiler root, the linked compiler directory under the
project's `node_modules`, or the shim directory; otherwise the project's
`node_modules` — join with all tokens; `needs-alias` iff the subpath is
non-empty. -/
def specShimMiss (compilerRoot requesterPath : String) (assets : AssetsM)
    (tokens subPath : List String) : String × Bool :=
  let linkedCompilerRoot := posixJoin2 assets.projectNodeModulesDir "frida-compile"
  let base :=
    if strStartsWith requesterPath compilerRoot ||
        strStartsWith requesterPath linkedCompilerRoot ||
        strStartsWith requesterPath assets.shimDir then assets.shimDir
    else assets.projectNodeModulesDir
  (posixJoin (base :: tokens), subPath.length > 0)

/-- The entry a `package.json` manifest designates: its `module` field,
falling back to `main`, falling back to `index.js` (a `null` field also falls
through); a manifest that is the JSON literal `null` or whose chosen field is
not a string makes the resolver throw. -/
def specManifestEntry (meta : JSValue) : Except Unit String :=
  let asEntry : JSValue → Except Unit String := fun v =>
    match v with
    | .str s => .ok s
    | _ => .error ()
  match meta with
  | .null => .error ()
  | .obj fields =>
    (match jsNullish (mapGet fields "module") with
     | some v => asEntry v
     | none =>
       match jsNullish (mapGet fields "main") with
       | some v => asEntry v
       | none => .ok "index.js")
  | _ => .ok "index.js"

/-- Spec §4.1 steps 5–6: a directory containing `package.json` is replaced by
its `module` / `main` / `index.js` entry (appending `index.js` when the entry
is itself a directory) with `needs-alias = true`; a directory without
`package.json` gets `index.js` appended. -/
def specDirectoryStep (sys : SysModel) (path : String) (needsAlias : Bool) :
    Except Unit (String × Bool) :=
  if sys.directoryExists path then
    match sys.readFile (posixJoin2 path "package.json") with
    | none => .ok (posixJoin2 path "index.js", needsAlias)
    | some raw =>
      match jsonParse raw with
      | none => .error ()
      | some meta =>
        match specManifestEntry meta with
        | .error e => .error e
        | .ok chosen =>
          let entry := posixJoin2 path chosen
          if sys.directoryExists entry then .ok (posixJoin2 entry "index.js", true)
          else .ok (entry, true)
  else .ok (path, needsAlias)

/-- Spec §4.1 steps 7–8: retry once with `.js` appended; otherwise
`Unresolvable`. -/
def specRetryStep (sys : SysModel) (path : String) (needsAlias : Bool) :
    Except Unit (String × Bool) :=
  if sys.fileExists path then .ok (path, needsAlias)
  else if sys.fileExists (path ++ ".js") then .ok (path ++ ".js", needsAlias)
  else .error ()

/-- Spec §4.1 steps 1–4 assembled: an absolute name is taken as-is with
`needs-alias = false`; otherwise the shim catalog decides between the hit and
miss rules. -/
def specResolveStart (compilerRoot : String) (refName requesterPath : String)
    (assets : AssetsM) : String × Bool :=
  if isAbsolutePath refName then (refName, false)
  else
    let tokens := strSplitOnChar refName '/'
    let pkgName := (specSplitPackage refName).1
    let subPath := (specSplitPackage refName).2
    match mapGet assets.shims pkgName with
    | some shimRoot => specShimHit shimRoot subPath
    | none => specShimMiss compilerRoot requesterPath assets tokens subPath

/-- The resolver assembled from the spec's numbered steps. -/
def resolveModuleReferenceSpec (compilerRoot : String) (refName requesterPath : String)
    (assets : AssetsM) (sys : SysModel) : Except Unit (String × Bool) :=
  let start := specResolveStart compilerRoot refName requesterPath assets
  match specDirectoryStep sys start.1 start.2 with
  | .error e => .error e
  | .ok (p, a) => specRetryStep sys p a

/-! ## The bundler state

A parsed source file is abstracted to the sequence of references the module
scanner (`processJSModule`) extracts from its AST, in document order: static
import/export specifiers always contribute, `require("…")` call sites (an
identifier callee named `require` with exactly one string-literal argument)
contribute only when the owning module is CommonJS.  This is the scanner's
input/output contract; the AST walk itself is host-compiler machinery. -/

structure SourceRef where
  name : String
  viaRequire : Bool
deriving DecidableEq

structure SrcFile where
  fileName : String
  text : String
  isDeclarationFile : Bool
  refs : List SourceRef
deriving DecidableEq

/-- The `JSModule` record. -/
structure JSModuleM where
  type : ModuleType
  path : String
  file : SrcFile
  aliases : List String
deriving DecidableEq

/-- A `ModuleReference` (pending-queue entry). -/
structure ModuleRefM where
  name : String
  referrer : JSModuleM
deriving DecidableEq

/-- The mutable state owned by one `createBundler` closure. -/
structure BundlerState where
  output : List (String × String)
  pendingModules : List ModuleRefM
  processedModules : List String
  jsonFilePaths : List String
  modules : List (String × JSModuleM)
  externalSources : List (String × SrcFile)
deriving DecidableEq

/-- The empty state a fresh bundler starts with. -/
def initialBundlerState : BundlerState :=
  { output := [], pendingModules := [], processedModules := [],
    jsonFilePaths := [], modules := [], externalSources := [] }

/-- Static configuration of one bundler: the module-scope `compilerRoot`, the
bundle options, and the external collaborators (system, parser).  `parseSrc`
abstracts `ts.createSourceFile` followed by scanning: it yields the references
of an externally loaded file from its path and text. -/
structure BundlerConfig where
  compilerRoot : String
  projectRoot : String
  entrypointOutput : String
  assets : AssetsM
  sys : SysModel
  parseSrc : String → String → List SourceRef
  sourceMapsIncluded : Bool
  compressionTerser : Bool
  minify : String → String → Option String → Except Unit (String × Option String)

/-- `assetNameFromFilePath`: strip the compiler-root prefix, else the
project-root prefix, else throw. -/
def assetNameFromFilePath (cfg : BundlerConfig) (path : String) : Except Unit String :=
  if strStartsWith path cfg.compilerRoot then .ok (strDrop path cfg.compilerRoot.length)
  else if strStartsWith path cfg.projectRoot then .ok (strDrop path cfg.projectRoot.length)
  else .error ()

/-- `maybeAddModuleToPending`: normalize a relative reference against the
module directory, route `.json` references to the JSON path set, and enqueue
anything not yet processed. -/
def maybeAddModuleToPending (mod : JSModuleM) (moduleDir : String) (name : String)
    (st : BundlerState) : BundlerState :=
  let ref := if strStartsWith name "." then posixJoin2 moduleDir name else name
  if strEndsWith name ".json" then
    { st with jsonFilePaths := setAdd st.jsonFilePaths ref }
  else if st.processedModules.contains ref then st
  else { st with pendingModules := st.pendingModules ++ [{ name := ref, referrer := mod }] }

/-- `processJSModule`: feed the scanner's references into the queue;
`require`-site references only count for CommonJS modules. -/
def processJSModule (mod : JSModuleM) (st : BundlerState) : BundlerState :=
  let moduleDir := posixDirname mod.path
  mod.file.refs.foldl
    (fun st r =>
      if r.viaRequire && !(mod.type = ModuleType.cjs : Bool) then st
      else maybeAddModuleToPending mod moduleDir r.name st)
    st

/-- `getExternalSourceFile`: cached parse of an externally discovered file;
`.error ()` models the `unable to open …` throw (not caught by the drain
loop). -/
def getExternalSourceFile (cfg : BundlerConfig) (path : String) (st : BundlerState) :
    Except Unit (SrcFile × BundlerState) :=
  match mapGet st.externalSources path with
  | some file => .ok (file, st)
  | none =>
    match cfg.sys.readFile path with
    | none => .error ()
    | some sourceText =>
      let file : SrcFile :=
        { fileName := path, text := sourceText, isDeclarationFile := false,
          refs := cfg.parseSrc path sourceText }
      .ok (file, { st with externalSources := mapSet st.externalSources path file })

/-- Add a reference's canonical string to a module's alias set, stripping the
project-root prefix from absolute references. -/
def addAlias (cfg : BundlerConfig) (st : BundlerState) (assetName refName : String) :
    BundlerState :=
  let alias0 := if isAbsolutePath refName then strDrop refName cfg.projectRoot.length else refName
  match mapGet st.modules assetName with
  | some mod =>
    { st with modules := mapSet st.modules assetName { mod with aliases := setAdd mod.aliases alias0 } }
  | none => st

inductive BundleErr where
  | unresolvable (names : List String)
  | commonJS (paths : List String)
  | fatal
deriving DecidableEq

/-- Whether resolution of a reference throws (the drain loop's `catch`). -/
def refFails (cfg : BundlerConfig) (ref : ModuleRefM) : Bool :=
  match resolveModuleReference cfg.compilerRoot ref.name ref.referrer.path cfg.assets cfg.sys with
  | .error _ => true
  | .ok _ => false

/-- The drain loop (`while ((ref = pendingModules.shift()) !== undefined)`),
fuel-indexed: `none` means the fuel ran out with work remaining (the loop in
the source is unbounded).  A resolution failure records the name in `missing`
and continues; other throws (`getExternalSourceFile`, `detectModuleType`,
`assetNameFromFilePath`) abort the pass. -/
def drainLoop (cfg : BundlerConfig) :
    Nat → BundlerState → List String → Option (Except BundleErr (BundlerState × List String))
  | 0, st, missing =>
    if st.pendingModules.isEmpty then some (.ok (st, missing)) else none
  | fuel + 1, st, missing =>
    match st.pendingModules with
    | [] => some (.ok (st, missing))
    | ref :: rest =>
      let st1 := { st with pendingModules := rest,
                           processedModules := setAdd st.processedModules ref.name }
      match resolveModuleReference cfg.compilerRoot ref.name ref.referrer.path cfg.assets cfg.sys with
      | .error _ => drainLoop cfg fuel st1 (setAdd missing ref.name)
      | .ok (modPath, needsAlias) =>
        match assetNameFromFilePath cfg modPath with
        | .error _ => some (.error .fatal)
        | .ok assetName =>
          match mapGet st1.modules assetName with
          | some _ =>
            let st2 := if needsAlias then addAlias cfg st1 assetName ref.name else st1
            drainLoop cfg fuel st2 missing
          | none =>
            match getExternalSourceFile cfg modPath st1 with
            | .error _ => some (.error .fatal)
            | .ok (sourceFile, st2) =>
              match detectModuleType modPath cfg.sys.readFile with
              | .error _ => some (.error .fatal)
              | .ok mtype =>
                let mod : JSModuleM :=
                  { type := mtype, path := modPath, file := sourceFile, aliases := [] }
                let st3 := { st2 with
                  output := mapSet st2.output assetName sourceFile.text,
                  modules := mapSet st2.modules assetName mod,
                  processedModules := setAdd st2.processedModules modPath }
                let st4 := processJSModule mod st3
                let st5 := if needsAlias then addAlias cfg st4 assetName ref.name else st4
                drainLoop cfg fuel st5 missing

/-- The two post-drain checks, in source order: missing references first
(`unable to resolve`), then the CommonJS rejection. -/
def graphChecks (st : BundlerState) (missing : List String) : Except BundleErr Unit :=
  if !missing.isEmpty then
    .error (.unresolvable (sortStrings missing))
  else
    let legacyModules :=
      sortStrings (((st.modules.map (·.2)).filter
        (fun m => (m.type = ModuleType.cjs : Bool))).map (·.path))
    if !legacyModules.isEmpty then .error (.commonJS legacyModules)
    else .ok ()

/-! ## The remaining phases of `bundle(program)` -/

/-- `markAllProgramSourcesAsProcessed`: record each non-declaration source's
output path as processed. -/
def markAllProgramSourcesAsProcessed (program : List SrcFile) (st : BundlerState) :
    BundlerState :=
  let pm :=
    program.foldl
      (fun pm sf =>
        if sf.isDeclarationFile then pm
        else setAdd pm (changeFileExtension sf.fileName "js"))
      st.processedModules
  { st with processedModules := pm }

/-- The loop over `program.getSourceFiles()`: build an `esm` module record for
each non-declaration source (fresh, with an empty alias set) and scan it. -/
def registerProgramModules (cfg : BundlerConfig) (program : List SrcFile)
    (st : BundlerState) : Except BundleErr BundlerState :=
  program.foldlM
    (fun st sf =>
      if sf.isDeclarationFile then pure st
      else
        let path := changeFileExtension sf.fileName "js"
        match assetNameFromFilePath cfg path with
        | .error _ => .error .fatal
        | .ok assetName =>
          let mod : JSModuleM := { type := .esm, path := path, file := sf, aliases := [] }
          let st := { st with modules := mapSet st.modules assetName mod }
          pure (processJSModule mod st))
    st

/-- Load each deferred JSON file into the output table under its asset name
(skipping names already present).  The source stores `system.readFile(path)!`
unconditionally; a failed read surfaces as a thrown error either way and is
modelled as `.fatal` here. -/
def loadJsonAssets (cfg : BundlerConfig) (st : BundlerState) : Except BundleErr BundlerState :=
  st.jsonFilePaths.foldlM
    (fun st path =>
      match assetNameFromFilePath cfg path with
      | .error _ => .error .fatal
      | .ok assetName =>
        if mapHas st.output assetName then pure st
        else
          match cfg.sys.readFile path with
          | some data => pure { st with output := mapSet st.output assetName data }
          | none => .error .fatal)
    st

/-- Rewrite one `.js` asset: source-map trimming and materialization, then
optional minification (the external minifier is an oracle returning the final
code and, when requested, the final serialized map). -/
def rewriteJsAsset (cfg : BundlerConfig) (st : BundlerState) (name data : String) :
    Except BundleErr BundlerState := do
  let code := data
  let lines := strSplitOnChar code '\n'
  let n := lines.length
  let lastLine := lines.getLastD ""
  let sourceMapToken := "//# sourceMappingURL="
  let (code, st) ←
    if strStartsWith lastLine sourceMapToken then do
      let code := String.intercalate "\n" (lines.take (n - 1))
      let st ←
        if cfg.sourceMapsIncluded then
          let inlinedSourceMapOrPath := strDrop lastLine sourceMapToken.length
          let dataUrlToken := "data:application/json;base64,"
          let isInlined := strStartsWith inlinedSourceMapOrPath dataUrlToken
          let sourceMapPath :=
            if isInlined then name ++ ".map"
            else posixJoin2 (posixDirname name) inlinedSourceMapOrPath
          if !mapHas st.output sourceMapPath then
            let content :=
              if isInlined then
                match cfg.sys.base64decode with
                | some dec => dec (strDrop inlinedSourceMapOrPath dataUrlToken.length)
                | none => none
              else cfg.sys.readFile ("." ++ sourceMapPath)
            match content with
            | some c => pure { st with output := mapSet st.output sourceMapPath c }
            | none => pure st
          else pure st
        else pure st
      pure (code, st)
    else pure (code, st)
  let (code, st) ←
    if cfg.compressionTerser then
      match mapGet st.modules name with
      | none => .error .fatal
      | some mod =>
        let mapName := name ++ ".map"
        let inputMap := if cfg.sourceMapsIncluded then mapGet st.output mapName else none
        match cfg.minify mod.path code inputMap with
        | .error _ => .error .fatal
        | .ok (code2, mapOut) =>
          if cfg.sourceMapsIncluded then
            match mapOut with
            | some m => pure (code2, { st with output := mapSet st.output mapName m })
            | none => .error .fatal
          else pure (code2, st)
    else pure (code, st)
  pure { st with output := mapSet st.output name code }

/-- One step of the `for (const [name, data] of output)` rewrite loop, indexed
by position: JavaScript `Map` iteration visits entries in insertion order and
also visits entries appended during the loop, which index-based iteration over
the association list reproduces exactly. -/
def rewriteLoop (cfg : BundlerConfig) :
    Nat → BundlerState → Nat → Option (Except BundleErr BundlerState)
  | 0, st, i => if st.output.length ≤ i then some (.ok st) else none
  | fuel + 1, st, i =>
    match st.output.get? i with
    | none => some (.ok st)
    | some (name, data) =>
      if strEndsWith name ".js" then
        match rewriteJsAsset cfg st name data with
        | .error e => some (.error e)
        | .ok st2 => rewriteLoop cfg fuel st2 (i + 1)
      else if strEndsWith name ".json" then
        match jsonToModule data with
        | .error _ => some (.error .fatal)
        | .ok m => rewriteLoop cfg fuel { st with output := mapSet st.output name m } (i + 1)
      else rewriteLoop cfg fuel st (i + 1)

/-! ## Serialization (`bundle`'s tail) -/

/-- The emission-order construction: walk the sorted non-map names; an
entrypoint-matching name is spliced in at the front, others at the end, each
preceded by its `.map` when one exists. -/
def buildNamesGo (hasMap : String → Bool) (isEntry : String → Bool) :
    List String → List String → List String
  | acc, [] => acc
  | acc, name :: rest =>
    let index := if isEntry name then 0 else acc.length
    let mapName := name ++ ".map"
    let acc1 := if hasMap mapName then List.insertIdx index mapName acc else acc
    let index1 := if hasMap mapName then index + 1 else index
    let acc2 := List.insertIdx index1 name acc1
    buildNamesGo hasMap isEntry acc2 rest

/-- The emission order of `bundle`. -/
def emissionOrder (st : BundlerState) (entrypointOutput : String) : List String :=
  let orderedNames := sortStrings (mapKeys st.output)
  let maps := orderedNames.filter (fun n => strEndsWith n ".map")
  let entrypointNormalized := posixNormalize entrypointOutput
  buildNamesGo (fun m => maps.contains m)
    (fun n => posixNormalize n = entrypointNormalized)
    [] (orderedNames.filter (fun n => !strEndsWith n ".map"))

/-- One manifest chunk: the byte-length line plus the `↻` alias lines of the
module stored under the same asset name (if any). -/
def manifestChunk (st : BundlerState) (name : String) : String :=
  let rawData := (mapGet st.output name).getD ""
  let lenLine := toString rawData.utf8ByteSize ++ " " ++ name ++ "\n"
  let aliasLines :=
    match mapGet st.modules name with
    | some mod => String.join (mod.aliases.map (fun a => "↻ " ++ a ++ "\n"))
    | none => ""
  lenLine ++ aliasLines

/-- The payload chunks: contents in emission order, `"\n✄\n"` before every
asset except the first (the `i !== 0` test in the source). -/
def payloadChunks (st : BundlerState) : List String → List String
  | [] => []
  | name :: rest =>
    (mapGet st.output name).getD "" ::
      rest.map (fun m => "\n✄\n" ++ (mapGet st.output m).getD "")

/-- The serialized bundle (`chunks.join("")`). -/
def serializeAssets (st : BundlerState) (entrypointOutput : String) : String :=
  let names := emissionOrder st entrypointOutput
  "📦\n" ++ String.join (names.map (manifestChunk st)) ++ "✄\n" ++
    String.join (payloadChunks st names)

/-- `bundle(program)` end to end.  The outer `Option` is fuel exhaustion (the
two unbounded loops); `.error` is a thrown failure; `.ok` yields the bundle
string and the bundler state left behind for the next call. -/
def bundlePass (cfg : BundlerConfig) (fuel : Nat) (program : List SrcFile)
    (st : BundlerState) : Option (Except BundleErr (String × BundlerState)) :=
  let st := markAllProgramSourcesAsProcessed program st
  match registerProgramModules cfg program st with
  | .error e => some (.error e)
  | .ok st =>
    match drainLoop cfg fuel st [] with
    | none => none
    | some (.error e) => some (.error e)
    | some (.ok (st, missing)) =>
      match graphChecks st missing with
      | .error e => some (.error e)
      | .ok _ =>
        match loadJsonAssets cfg st with
        | .error e => some (.error e)
        | .ok st =>
          match rewriteLoop cfg fuel st 0 with
          | none => none
          | some (.error e) => some (.error e)
          | some (.ok st) => some (.ok (serializeAssets st cfg.entrypointOutput, st))

/-- `invalidate(path)` from the source: delete the asset, clear the whole
processed set, drop the cached parse.  The error is the
`assetNameFromFilePath` throw for a path under neither root. -/
def invalidate (cfg : BundlerConfig) (st : BundlerState) (path : String) :
    Except Unit BundlerState :=
  match assetNameFromFilePath cfg path with
  | .error e => .error e
  | .ok assetName =>
    .ok { st with
      output := mapDelete st.output assetName,
      processedModules := [],
      externalSources := mapDelete st.externalSources path }

/-! ## Entrypoint derivation and the build pipeline head -/

structure EntrypointName where
  input : String
  output : String
deriving DecidableEq

/-- `deriveEntrypoint`: join a relative entrypoint to the project root, require
the result to start with the project root, and derive the output asset name by
stripping that prefix and turning a trailing `.ts` into `.js` (the source drops
the final two characters, keeping the dot). -/
def deriveEntrypoint (projectRoot entrypoint : String) : Except String EntrypointName :=
  let input := if isAbsolutePath entrypoint then entrypoint else posixJoin2 projectRoot entrypoint
  if !strStartsWith input projectRoot then
    .error "entrypoint must be inside the project root"
  else
    let output := strDrop input projectRoot.length
    let output :=
      if strEndsWith output ".ts" then strTake output (output.length - 2) ++ "js" else output
    .ok { input := input, output := output }

/-- The head both `build` and `watch` share: derive the entrypoint before any
compiler work, which is abstracted as an arbitrary continuation. -/
def buildPipeline {α : Type} (projectRoot entrypoint : String)
    (compileAndBundle : EntrypointName → Except String α) : Except String α := do
  let e ← deriveEntrypoint projectRoot entrypoint
  compileAndBundle e

/-! ## The watch controller (`rebundle` and the debounce timer) -/

inductive WatchPhase where
  | dirty
  | clean
deriving DecidableEq

inductive WatchEvent where
  | compilationStarting
  | compilationFinished
  | bundleUpdated (bundle : String)
deriving DecidableEq

/-- `rebundle()`: set the state to clean, run the bundler (its outcome is the
`bundleRun` argument, `.error` standing for a throw caught by the handler),
emit `bundleUpdated` and store the bundle only when it differs from
`previousBundle`, and always emit `compilationFinished` last. -/
def rebundleModel (bundleRun : Except Unit String) (previousBundle : Option String) :
    WatchPhase × Option String × List WatchEvent :=
  match bundleRun with
  | .ok bundle =>
    if previousBundle = some bundle then (.clean, previousBundle, [.compilationFinished])
    else (.clean, some bundle, [.bundleUpdated bundle, .compilationFinished])
  | .error _ => (.clean, previousBundle, [.compilationFinished])

/-- The debounce scheduler of the watched-file-changed handler, as a discrete
event simulation: the input is the ascending list of change-event times (ms),
the timer state is the pending fire time; a change with no timer running
starts a 250 ms timer, a change while the timer runs leaves it alone, and the
result is the list of times at which `rebundle` starts. -/
def debounceRuns : List Nat → Option Nat → List Nat
  | [], timer =>
    match timer with
    | some fireAt => [fireAt]
    | none => []
  | t :: ts, none => debounceRuns ts (some (t + 250))
  | t :: ts, some fireAt =>
    if fireAt ≤ t then fireAt :: debounceRuns ts (some (t + 250))
    else debounceRuns ts (some fireAt)


/-! ## The bundle format as the spec states it (§4.7 / §6) -/

/-- A primary asset preceded by its `.map`, when that map asset exists. -/
def pairOf (hasMap : String → Bool) (n : String) : List String :=
  (if hasMap (n ++ ".map") then [n ++ ".map"] else []) ++ [n]

/-- The emission order as the spec words it: the entrypoint's normalized
output name (with its map immediately before it) first, then every other
primary in lexicographic order, each preceded by its map when present. -/
def specEmissionOrder (st : BundlerState) (entrypointOutput : String) : List String :=
  let sorted := sortStrings (mapKeys st.output)
  let primaries := sorted.filter (fun n => !strEndsWith n ".map")
  let hasMap := fun m => (sorted.filter (fun n => strEndsWith n ".map")).contains m
  let isEntry := fun n => (posixNormalize n = posixNormalize entrypointOutput : Bool)
  (primaries.filter isEntry).flatMap (pairOf hasMap) ++
    (primaries.filter (fun n => !isEntry n)).flatMap (pairOf hasMap)

/-- One manifest line as the spec words it: the UTF-8 byte length of the
asset's contents, a space, the name, a newline, then one `↻ <alias>` line per
alias of the module stored under the same name. -/
def specManifestLine (st : BundlerState) (name : String) : String :=
  toString ((mapGet st.output name).getD "").utf8ByteSize ++ " " ++ name ++ "\n" ++
    String.join ((match mapGet st.modules name with
      | some mod => mod.aliases
      | none => []).map (fun a => "↻ " ++ a ++ "\n"))

/-- The bit-exact bundle envelope as the spec words it: the `📦` code point
plus newline, the manifest lines in emission order, the `✄` separator line,
then the asset contents joined with `"\n✄\n"` and no separator before the
first asset. -/
def specSerialize (st : BundlerState) (entrypointOutput : String) : String :=
  "📦\n" ++ String.join ((specEmissionOrder st entrypointOutput).map (specManifestLine st)) ++
    "✄\n" ++ String.intercalate "\n✄\n"
      ((specEmissionOrder st entrypointOutput).map (fun n => (mapGet st.output n).getD ""))

/-! ## Concrete artifacts used by claim witnesses and counterexamples -/

/-- The program source of the C6 scenario: an entrypoint referencing a JSON
document (the scanner extracts the one reference from its AST). -/
def c6IndexTs : SrcFile :=
  { fileName := "/p/agent/index.ts", text := "", isDeclarationFile := false,
    refs := [{ name := "./data.json", viaRequire := false }] }

/-- The C6 program. -/
def c6Program : List SrcFile := [c6IndexTs]

/-- The C6 configuration: the system serves the JSON document; no source maps,
no compression. -/
def c6Cfg : BundlerConfig :=
  { compilerRoot := "/frida-compile", projectRoot := "/p",
    entrypointOutput := "/agent/index.js",
    assets := { projectNodeModulesDir := "/p/node_modules",
                compilerNodeModulesDir := "/frida-compile/node_modules",
                shimDir := "/frida-compile/node_modules", shims := [] },
    sys := { fileExists := fun _ => false, directoryExists := fun _ => false,
             readFile := fun p =>
               if p = "/p/agent/data.json" then some "\x7b\"a\": 1\x7d" else none,
             base64decode := none },
    parseSrc := fun _ _ => [], sourceMapsIncluded := false,
    compressionTerser := false, minify := fun _ _ _ => .error () }

/-- The C6 initial bundler state: the compiler's emit has already written the
entrypoint's JS through the redirected `writeFile`. -/
def c6State0 : BundlerState :=
  { initialBundlerState with output := [("/agent/index.js", "console.log(1);")] }


/-- A minimal source-file record for concrete states. -/
def plainFile (p : String) : SrcFile :=
  { fileName := p, text := "", isDeclarationFile := false, refs := [] }

/-- A minimal bundler configuration for concrete states. -/
def c9Cfg : BundlerConfig :=
  { compilerRoot := "/frida-compile", projectRoot := "/p",
    entrypointOutput := "/agent/index.js",
    assets := { projectNodeModulesDir := "/p/node_modules",
                compilerNodeModulesDir := "/frida-compile/node_modules",
                shimDir := "/frida-compile/node_modules", shims := [] },
    sys := { fileExists := fun _ => false, directoryExists := fun _ => false,
             readFile := fun _ => none, base64decode := none },
    parseSrc := fun _ _ => [], sourceMapsIncluded := false,
    compressionTerser := false, minify := fun _ _ _ => .error () }

/-- A state with two loaded external modules, both processed. -/
def c9State : BundlerState :=
  { output := [("/agent/a.js", "aa"), ("/agent/b.js", "bb")],
    pendingModules := [],
    processedModules := ["/p/agent/a.js", "/p/agent/b.js"],
    jsonFilePaths := [],
    modules := [],
    externalSources := [("/p/agent/a.js", plainFile "/p/agent/a.js"),
                        ("/p/agent/b.js", plainFile "/p/agent/b.js")] }

/-- The `esm` module that emitted the unresolvable reference (claim C3). -/
def c3Referrer : JSModuleM :=
  { type := .esm, path := "/p/agent/index.js",
    file := plainFile "/p/agent/index.js", aliases := [] }

/-- The unresolvable reference itself. -/
def c3Ref : ModuleRefM :=
  { name := "left-pad", referrer := c3Referrer }

/-- A CommonJS module record present alongside the failure. -/
def c3Legacy : JSModuleM :=
  { type := .cjs, path := "/p/agent/legacy.js",
    file := plainFile "/p/agent/legacy.js", aliases := [] }

/-- The state holding the one-element queue plus the CJS module. -/
def c3StartState : BundlerState :=
  { initialBundlerState with
      pendingModules := [c3Ref],
      modules := [("/agent/legacy.js", c3Legacy)] }

/-- The state after the failing reference is consumed. -/
def c3NextState : BundlerState :=
  { initialBundlerState with
      pendingModules := [],
      processedModules := ["left-pad"],
      modules := [("/agent/legacy.js", c3Legacy)] }

/-- The post-drain state with only the CJS module. -/
def c3CjsState : BundlerState :=
  { initialBundlerState with modules := [("/agent/legacy.js", c3Legacy)] }

/-- A module record with an alias, for the C2 witness. -/
def c2UtilMod : JSModuleM :=
  { type := .esm, path := "/p/agent/util.js",
    file := plainFile "/p/agent/util.js", aliases := ["util-pkg"] }

/-- A three-asset table (entrypoint, its map, one aliased module) for the C2
witness. -/
def c2State : BundlerState :=
  { initialBundlerState with
      output := [("/agent/index.js", "console.log(1);"),
                 ("/agent/index.js.map", "MAP"),
                 ("/agent/util.js", "u")],
      modules := [("/agent/util.js", c2UtilMod)] }

/-! # Theorems -/

theorem insertSorted_perm (x : String) (l : List String) :
    (insertSorted x l).Perm (x :: l) := by
  induction l with
  | nil => simp [insertSorted]
  | cons y ys ih =>
    by_cases h : strLeB x y
    · simp [insertSorted, h]
    · simp only [insertSorted, h]
      exact (ih.cons y).trans (List.Perm.swap x y ys)

theorem sortStrings_perm (l : List String) : (sortStrings l).Perm l := by
  induction l with
  | nil => simp [sortStrings]
  | cons x xs ih =>
    exact (insertSorted_perm x (sortStrings xs)).trans (ih.cons x)

theorem mem_sortStrings {x : String} {l : List String} : x ∈ sortStrings l ↔ x ∈ l :=
  (sortStrings_perm l).mem_iff

theorem sortStrings_nodup {l : List String} (h : l.Nodup) : (sortStrings l).Nodup :=
  ((sortStrings_perm l).nodup_iff).mpr h

theorem resolveStart_eq_spec :
    ∀ compilerRoot refName requesterPath assets,
      resolveStart compilerRoot refName requesterPath assets =
        specResolveStart compilerRoot refName requesterPath assets := by
  intro croot refName reqPath assets
  unfold resolveStart specResolveStart specSplitPackage specShimHit specShimMiss
  by_cases habs : isAbsolutePath refName
  · simp [habs]
  · simp only [habs, Bool.false_eq_true, if_false]
    by_cases hat : strStartsWith ((strSplitOnChar refName '/').headD "") "@"
    · simp only [hat, if_true]
      cases hm : mapGet assets.shims ((strSplitOnChar refName '/').headD "" ++ "/" ++
          (match (strSplitOnChar refName '/').get? 1 with | some t => t | none => "undefined")) with
      | some s => simp [hm]
      | none =>
        simp only [hm]
        by_cases hreq : (strStartsWith reqPath croot ||
            strStartsWith reqPath (posixJoin2 assets.projectNodeModulesDir "frida-compile") ||
            strStartsWith reqPath assets.shimDir)
        · simp [hreq]
        · simp [hreq]
    · simp only [hat, Bool.false_eq_true, if_false]
      cases hm : mapGet assets.shims ((strSplitOnChar refName '/').headD "") with
      | some s => simp [hm]
      | none =>
        simp only [hm]
        by_cases hreq : (strStartsWith reqPath croot ||
            strStartsWith reqPath (posixJoin2 assets.projectNodeModulesDir "frida-compile") ||
            strStartsWith reqPath assets.shimDir)
        · simp [hreq]
        · simp [hreq]


theorem fileExistenceStep_eq_spec (sys : SysModel) (path : String) (needsAlias : Bool) :
    fileExistenceStep sys path needsAlias = specRetryStep sys path needsAlias := by
  unfold fileExistenceStep specRetryStep
  rfl

theorem packageDirStep_eq_spec (sys : SysModel) (path : String) (needsAlias : Bool) :
    packageDirStep sys path needsAlias = specDirectoryStep sys path needsAlias := by
  unfold packageDirStep specDirectoryStep specManifestEntry
  by_cases hd : sys.directoryExists path
  · simp only [hd, if_true]
    cases sys.readFile (posixJoin2 path "package.json") with
    | none => rfl
    | some raw =>
      dsimp only
      cases jsonParse raw with
      | none => rfl
      | some meta =>
        dsimp only
        have harm : ∀ chosen : String,
            (let pkgEntrypoint := posixJoin2 path chosen;
             let pkgEntrypoint :=
               if sys.directoryExists pkgEntrypoint then posixJoin2 pkgEntrypoint "index.js"
               else pkgEntrypoint;
             (Except.ok (pkgEntrypoint, true) : Except Unit (String × Bool))) =
              (if sys.directoryExists (posixJoin2 path chosen) then
                Except.ok (posixJoin2 (posixJoin2 path chosen) "index.js", true)
              else Except.ok (posixJoin2 path chosen, true)) := by
          intro chosen
          by_cases he : sys.directoryExists (posixJoin2 path chosen) <;> simp [he]
        cases meta with
        | null => rfl
        | bool b => exact harm "index.js"
        | num raw2 => exact harm "index.js"
        | str s => exact harm "index.js"
        | arr es => exact harm "index.js"
        | obj fields =>
          simp only [jsGetField, bind, Except.bind]
          cases hmo : jsNullish (mapGet fields "module") with
          | some v =>
            simp only [hmo]
            cases v with
            | str s => exact harm s
            | null => rfl
            | bool b => rfl
            | num r => rfl
            | arr es => rfl
            | obj f2 => rfl
          | none =>
            simp only [hmo]
            cases hma : jsNullish (mapGet fields "main") with
            | some v =>
              simp only [hma]
              cases v with
              | str s => exact harm s
              | null => rfl
              | bool b => rfl
              | num r => rfl
              | arr es => rfl
              | obj f2 => rfl
            | none =>
              simp only [hma]
              exact harm "index.js"
  · simp [hd]

/-- Claim C1: module resolution follows the spec's first-match-wins algorithm —
for every `(name, referrer)` reference, the implementation's resolver computes
exactly the result of the spec's numbered steps: absolute names taken as-is
with `needs-alias = false`; the package name (first two segments joined when
`@`-scoped, else the first segment) looked up in the shim catalog, a hit
yielding the shim root itself when it ends in `.js` and the root joined with
the subpath otherwise, always with `needs-alias = true`; a miss joining all
tokens to the shim directory when the referrer lies inside the compiler root,
the linked compiler directory under the project's `node_modules`, or the shim
directory, else to the project's `node_modules`, with `needs-alias` iff the
subpath is non-empty; then the `package.json` `module`/`main`/`index.js`
directory indirection (appending `index.js` to a directory entry, setting
`needs-alias = true`), `index.js` for a manifest-less directory, the single
`.js`-appending retry, and failure (`Unresolvable`) when no file exists. -/
theorem c1_resolver_matches_spec :
    ∀ compilerRoot refName requesterPath assets sys,
      resolveModuleReference compilerRoot refName requesterPath assets sys =
        resolveModuleReferenceSpec compilerRoot refName requesterPath assets sys := by
  intro croot refName reqPath assets sys
  unfold resolveModuleReference resolveModuleReferenceSpec
  rw [resolveStart_eq_spec]
  simp only [packageDirStep_eq_spec, fileExistenceStep_eq_spec]

/-! ## Claims about the JSON-to-module synthesizer -/

/-- Claim C4: for every JSON document parsing to a non-null object, the
synthesized module exports the object as default and a key becomes a named
export iff it satisfies the identifier grammar and is not an ES2015 reserved
word (keyword, literal, or strict-mode reservation) when used as a binding; on
`{"a": 1, "b-c": 2, "default": 3}` the module exports `default` and `a` and
neither `b-c` nor a named `default`, as the full synthesized text shows. -/
theorem c4_json_named_exports :
    (∀ data k, k ∈ jsonNamedExports data ↔
        (k ∈ jsObjectKeys data ∧ isIdentifierName k = true ∧
         es2015Keywords.contains k = false ∧ es2015StrictReserved.contains k = false)) ∧
    (∀ json data, jsonParse json = some data → jsIsObjectLike data = true →
        jsonToModule json = .ok (String.intercalate "\n" (jsonModuleParts json data))) ∧
    jsonToModule "\x7b\"a\": 1, \"b-c\": 2, \"default\": 3\x7d" =
      .ok ("const d = \x7b\"a\": 1, \"b-c\": 2, \"default\": 3\x7d;\n" ++
        "export default d;\nexport const a = d.a;") := by
  refine ⟨?_, ?_, ?_⟩
  · intro data k
    unfold jsonNamedExports checkIdentifier
    rw [List.mem_filter]
    constructor
    · rintro ⟨hk, hcheck⟩
      refine ⟨hk, ?_, ?_, ?_⟩ <;> revert hcheck <;>
        cases hident : isIdentifierName k <;> cases hkw : es2015Keywords.contains k <;>
          cases hsr : es2015StrictReserved.contains k <;> simp
    · rintro ⟨hk, hident, hkw, hsr⟩
      refine ⟨hk, ?_⟩
      cases hident2 : isIdentifierName k <;> cases hkw2 : es2015Keywords.contains k <;>
        cases hsr2 : es2015StrictReserved.contains k <;>
          simp_all
  · intro json data hparse hobj
    unfold jsonToModule
    rw [hparse]
    simp [hobj]
  · rfl

/-- Claim C4 witness: the characterizations evaluated at the concrete document
`{"a": 1, "b-c": 2, "default": 3}`. -/
theorem c4_json_named_exports_witness :
    jsonToModule "\x7b\"a\": 1, \"b-c\": 2, \"default\": 3\x7d" =
      .ok (String.intercalate "\n" (jsonModuleParts "\x7b\"a\": 1, \"b-c\": 2, \"default\": 3\x7d"
        (JSValue.obj [("a", .num "1"), ("b-c", .num "2"), ("default", .num "3")]))) :=
  c4_json_named_exports.2.1 "\x7b\"a\": 1, \"b-c\": 2, \"default\": 3\x7d"
    (JSValue.obj [("a", .num "1"), ("b-c", .num "2"), ("default", .num "3")])
    (by rfl) (by rfl)

/-- Claim C5: the binding identifier for an object-like document is the first
candidate in the stream `d`, `d1`, `d2`, … that is not an own property of the
object — witnessed by the collision example `{"d": 1}` binding `d1` — and a
document whose parsed value is not a non-null object synthesizes exactly
`export default <trimmed verbatim json>;`. -/
theorem c5_json_binding_and_nonobject :
    (∀ data n, n ≤ (jsObjectKeys data).length →
        (∀ i, i < n → jsHasOwn data (identCandidate i) = true) →
        jsHasOwn data (identCandidate n) = false →
        jsonModuleBinding data = identCandidate n) ∧
    jsonToModule "\x7b\"d\": 1\x7d" =
      .ok "const d1 = \x7b\"d\": 1\x7d;\nexport default d1;\nexport const d = d1.d;" ∧
    (∀ json data, jsonParse json = some data → jsIsObjectLike data = false →
        jsonToModule json = .ok ("export default " ++ jsTrim json ++ ";")) := by
  refine ⟨?_, by rfl, ?_⟩
  · intro data n hle hall hnot
    unfold jsonModuleBinding
    have key : ∀ m fuel j, m < fuel →
        (∀ i, i < m → jsHasOwn data (identCandidate (j + i)) = true) →
        jsHasOwn data (identCandidate (j + m)) = false →
        chooseIdentGo (jsHasOwn data) fuel (j + 1) (identCandidate j) =
          identCandidate (j + m) := by
      intro m
      induction m with
      | zero =>
        intro fuel j hf _ hnotm
        cases fuel with
        | zero => omega
        | succ f =>
          have h0 : jsHasOwn data (identCandidate j) = false := by
            simpa using hnotm
          simp [chooseIdentGo, h0]
      | succ m ih =>
        intro fuel j hf hallm hnotm
        cases fuel with
        | zero => omega
        | succ f =>
          have h0 : jsHasOwn data (identCandidate j) = true := by
            simpa using hallm 0 (by omega)
          have hcand : ("d" ++ toString (j + 1)) = identCandidate (j + 1) := rfl
          simp only [chooseIdentGo, h0, if_true]
          rw [hcand]
          have hstep := ih f (j + 1) (by omega)
            (fun i hi => by
              have := hallm (i + 1) (by omega)
              rwa [show j + (i + 1) = j + 1 + i by omega] at this)
            (by rwa [show j + (m + 1) = j + 1 + m by omega] at hnotm)
          rw [hstep, show j + 1 + m = j + (m + 1) by omega]
    have := key n ((jsObjectKeys data).length + 2) 0 (by omega)
      (fun i hi => by simpa using hall i hi) (by simpa using hnot)
    simpa using this
  · intro json data hparse hnotobj
    unfold jsonToModule
    rw [hparse]
    simp [hnotobj]

/-- Claim C5 witness: the binding choice evaluated on `{"d": 1}` (first
candidate `d` taken, so the chosen binding is `d1`), and the non-object rule on
`  42  `. -/
theorem c5_json_binding_and_nonobject_witness :
    jsonModuleBinding (JSValue.obj [("d", .num "1")]) = identCandidate 1 ∧
    jsonToModule " 42 " = .ok ("export default " ++ jsTrim " 42 " ++ ";") :=
  ⟨c5_json_binding_and_nonobject.1 (JSValue.obj [("d", .num "1")]) 1 (by decide)
      (fun i hi => by
        have h0 : i = 0 := by omega
        subst h0
        rfl)
      (by rfl),
   c5_json_binding_and_nonobject.2.2 " 42 " (.num "42") (by rfl) (by rfl)⟩

/-! ## Claim C3: failure collection in the drain loop -/

theorem setAdd_mem_of_mem {s : List String} {x k : String} (h : x ∈ s) : x ∈ setAdd s k := by
  unfold setAdd
  split
  · exact h
  · exact List.mem_append_left _ h

/-- Claim C3: a resolution failure in the drain loop is recorded in the
`missing` set and the loop continues with the remaining queue (it does not
abort); a completed drain has emptied the queue and kept every previously
collected failure; after the drain, a non-empty `missing` set fails with the
sorted list of all unresolvable names regardless of any CommonJS modules in
the table (so `Unresolvable` takes precedence over `CommonJSDetected`); and a
`CommonJSDetected` failure (with the sorted paths of the `cjs` modules) can
only arise when the missing-reference check passed. -/
theorem c3_missing_collection_and_precedence :
    (∀ cfg fuel st missing ref rest,
        st.pendingModules = ref :: rest → refFails cfg ref = true →
        drainLoop cfg (fuel + 1) st missing =
          drainLoop cfg fuel
            { st with pendingModules := rest,
                      processedModules := setAdd st.processedModules ref.name }
            (setAdd missing ref.name)) ∧
    (∀ cfg fuel st m0 st2 m2,
        drainLoop cfg fuel st m0 = some (.ok (st2, m2)) →
        st2.pendingModules = [] ∧ (∀ x, x ∈ m0 → x ∈ m2)) ∧
    (∀ st missing, missing ≠ [] →
        graphChecks st missing = .error (.unresolvable (sortStrings missing))) ∧
    (∀ st missing paths, graphChecks st missing = .error (.commonJS paths) →
        missing = [] ∧ paths = sortStrings (((st.modules.map (·.2)).filter
          (fun m => (m.type = ModuleType.cjs : Bool))).map (·.path))) := by
  refine ⟨?_, ?_, ?_, ?_⟩
  · intro cfg fuel st missing ref rest hp hfail
    cases hres : resolveModuleReference cfg.compilerRoot ref.name ref.referrer.path
        cfg.assets cfg.sys with
    | error e =>
      simp only [drainLoop, hp, hres]
    | ok pr =>
      unfold refFails at hfail
      rw [hres] at hfail
      cases hfail
  · intro cfg fuel
    induction fuel with
    | zero =>
      intro st m0 st2 m2 h
      unfold drainLoop at h
      split at h
      · rename_i hemp
        simp only [Option.some.injEq, Except.ok.injEq, Prod.mk.injEq] at h
        obtain ⟨h1, h2⟩ := h
        subst h1
        subst h2
        exact ⟨List.isEmpty_iff.mp hemp, fun x hx => hx⟩
      · cases h
    | succ fuel ih =>
      intro st m0 st2 m2 h
      rw [drainLoop] at h
      cases hp : st.pendingModules with
      | nil =>
        simp only [hp, Option.some.injEq, Except.ok.injEq, Prod.mk.injEq] at h
        obtain ⟨h1, h2⟩ := h
        subst h1
        subst h2
        exact ⟨hp, fun x hx => hx⟩
      | cons ref rest =>
        simp only [hp] at h
        cases hres : resolveModuleReference cfg.compilerRoot ref.name ref.referrer.path
            cfg.assets cfg.sys with
        | error e =>
          simp only [hres] at h
          obtain ⟨h1, h2⟩ := ih _ _ _ _ h
          exact ⟨h1, fun x hx => h2 x (setAdd_mem_of_mem hx)⟩
        | ok pr =>
          obtain ⟨modPath, needsAlias⟩ := pr
          simp only [hres] at h
          cases han : assetNameFromFilePath cfg modPath with
          | error e => simp only [han] at h; cases h
          | ok assetName =>
            simp only [han] at h
            cases hmod : mapGet
                { st with pendingModules := rest,
                          processedModules := setAdd st.processedModules ref.name }.modules
                assetName with
            | some m =>
              simp only [hmod] at h
              exact ih _ _ _ _ h
            | none =>
              simp only [hmod] at h
              cases hext : getExternalSourceFile cfg modPath
                  { st with pendingModules := rest,
                            processedModules := setAdd st.processedModules ref.name } with
              | error e => simp only [hext] at h; cases h
              | ok pr2 =>
                obtain ⟨sourceFile, st2x⟩ := pr2
                simp only [hext] at h
                cases hdet : detectModuleType modPath cfg.sys.readFile with
                | error e => simp only [hdet] at h; cases h
                | ok mtype =>
                  simp only [hdet] at h
                  exact ih _ _ _ _ h
  · intro st missing hne
    unfold graphChecks
    have : missing.isEmpty = false := by
      cases missing with
      | nil => exact absurd rfl hne
      | cons a l => rfl
    simp [this]
  · intro st missing paths h
    unfold graphChecks at h
    cases hmiss : missing with
    | cons a l =>
      rw [hmiss] at h
      simp only [List.isEmpty_cons, Bool.not_false, if_true] at h
      cases h
    | nil =>
      rw [hmiss] at h
      simp only [List.isEmpty_nil, Bool.not_true, Bool.false_eq_true, if_false] at h
      refine ⟨rfl, ?_⟩
      split at h
      · injection h with h
        injection h with h
        exact h.symm
      · cases h

/-- Claim C3 witness: the pieces evaluated on a one-element queue whose
reference is unresolvable while a CommonJS module record is present — the
failure is collected, the drain continues, and the post-drain check reports
`Unresolvable` (not `CommonJSDetected`). -/
theorem c3_missing_collection_and_precedence_witness :
    drainLoop c9Cfg 1 c3StartState [] = drainLoop c9Cfg 0 c3NextState ["left-pad"] ∧
    graphChecks c3CjsState ["left-pad"] =
      .error (.unresolvable (sortStrings ["left-pad"])) := by
  constructor
  · exact c3_missing_collection_and_precedence.1 c9Cfg 0 c3StartState [] c3Ref [] rfl (by rfl)
  · exact c3_missing_collection_and_precedence.2.2.1 c3CjsState ["left-pad"] (by decide)

/-! ## Claims about the watch controller -/

/-- Claim C7: every rebundle sets the phase to clean and emits
`compilationFinished` last, in all outcomes; it emits `bundleUpdated` and
stores the bundle as `previousBundle` iff the fresh bundle differs from
`previousBundle`; and when the bundler throws, `previousBundle` is untouched
and no `bundleUpdated` is emitted. -/
theorem c7_rebundle_events :
    ∀ run prev,
      (rebundleModel run prev).1 = WatchPhase.clean ∧
      (rebundleModel run prev).2.2.getLast? = some WatchEvent.compilationFinished ∧
      (∀ b, WatchEvent.bundleUpdated b ∈ (rebundleModel run prev).2.2 ↔
          (run = .ok b ∧ prev ≠ some b)) ∧
      (∀ b, run = .ok b →
          (rebundleModel run prev).2.1 = (if prev = some b then prev else some b)) ∧
      (run = .error () →
          (rebundleModel run prev).2.1 = prev ∧
          (∀ b, WatchEvent.bundleUpdated b ∉ (rebundleModel run prev).2.2)) := by
  intro run prev
  cases run with
  | error e =>
    refine ⟨rfl, rfl, ?_, ?_, ?_⟩
    · intro b
      simp [rebundleModel]
    · intro b hb
      cases hb
    · intro _
      exact ⟨rfl, by intro b; simp [rebundleModel]⟩
  | ok bundle =>
    by_cases hsame : prev = some bundle
    · refine ⟨by simp [rebundleModel, hsame], by simp [rebundleModel, hsame], ?_, ?_, ?_⟩
      · intro b
        simp only [rebundleModel, hsame, if_pos rfl]
        constructor
        · intro hmem
          simp at hmem
        · rintro ⟨hb, hne⟩
          rw [Except.ok.injEq] at hb
          subst hb
          exact absurd rfl hne
      · intro b hb
        cases hb
        simp [rebundleModel, hsame]
      · intro h
        cases h
    · refine ⟨by simp [rebundleModel, hsame], by simp [rebundleModel, hsame], ?_, ?_, ?_⟩
      · intro b
        simp only [rebundleModel, if_neg hsame]
        constructor
        · intro hmem
          simp only [List.mem_cons, List.not_mem_nil, or_false] at hmem
          rcases hmem with h | h
          · cases h
            exact ⟨rfl, fun hc => hsame (by simpa using hc)⟩
          · cases h
        · rintro ⟨hb, _⟩
          cases hb
          simp
      · intro b hb
        cases hb
        simp [rebundleModel, hsame]
      · intro h
        cases h

/-- Claim C7 witness: the characterization applied to a throwing run over a
kept previous bundle, and to a successful run differing from it. -/
theorem c7_rebundle_events_witness :
    (rebundleModel (.error ()) (some "prev")).2.1 = some "prev" ∧
    WatchEvent.bundleUpdated "new" ∈ (rebundleModel (.ok "new") (some "prev")).2.2 :=
  ⟨((c7_rebundle_events (.error ()) (some "prev")).2.2.2.2 rfl).1,
   ((c7_rebundle_events (.ok "new") (some "prev")).2.2.1 "new").mpr
     ⟨rfl, by simp⟩⟩

/-- A timer due later than every remaining change event fires exactly once. -/
theorem debounceRuns_all_before (ts : List Nat) (fireAt : Nat)
    (h : ∀ t ∈ ts, t < fireAt) : debounceRuns ts (some fireAt) = [fireAt] := by
  induction ts with
  | nil => rfl
  | cons t ts ih =>
    have hlt : t < fireAt := h t (by simp)
    simp only [debounceRuns, if_neg (by omega : ¬fireAt ≤ t)]
    exact ih (fun u hu => h u (by simp [hu]))

/-- Claim C8 counterexample: with change events at t = 0, 100, 200 ms the
single rebundle starts at t = 250 ms, not at or after t = 450 ms — the timer
is started by the first event and never reset. -/
theorem c8_debounce_counterexample :
    debounceRuns [0, 100, 200] none = [250] ∧ ¬(450 ≤ 250) := by
  constructor
  · rfl
  · omega

/-- Claim C8 as amended: change events at t = 0, 100, 200 ms (and in general
any burst strictly inside the first event's 250 ms window) produce exactly one
rebundle, starting 250 ms after the first event; a change event that arrives
while the debounce timer is already running leaves the timer alone. -/
theorem c8_debounce_amended :
    (∀ t0 ts, (∀ t ∈ ts, t < t0 + 250) → debounceRuns (t0 :: ts) none = [t0 + 250]) ∧
    (∀ ts fireAt t, t < fireAt →
        debounceRuns (t :: ts) (some fireAt) = debounceRuns ts (some fireAt)) := by
  constructor
  · intro t0 ts h
    simp only [debounceRuns]
    exact debounceRuns_all_before ts (t0 + 250) h
  · intro ts fireAt t ht
    simp only [debounceRuns, if_neg (by omega : ¬fireAt ≤ t)]

/-- Claim C8 witness: the amended statement applied to the concrete burst
t = 0, 100, 200 and to a change at t = 100 under a timer due at t = 250. -/
theorem c8_debounce_amended_witness :
    debounceRuns [0, 100, 200] none = [0 + 250] ∧
    debounceRuns [100, 200] (some 250) = debounceRuns [200] (some 250) :=
  ⟨c8_debounce_amended.1 0 [100, 200] (by intro t ht; simp at ht; omega),
   c8_debounce_amended.2 [200] 250 100 (by omega)⟩

/-- Claim C9 counterexample: invalidating `/p/agent/a.js` also removes the
*other* module's entry from the processed set — the implementation clears the
entire processed set, so the claim's frame condition on the processed set
fails. -/
theorem c9_invalidate_counterexample :
    ∃ st2, invalidate c9Cfg c9State "/p/agent/a.js" = .ok st2 ∧
      "/p/agent/b.js" ∈ c9State.processedModules ∧
      "/p/agent/b.js" ∉ st2.processedModules :=
  ⟨_, rfl, by decide, by decide⟩

/-- Claim C9 as amended: invalidating a watched path removes exactly that
module's asset-table entry and drops exactly its cached parsed source, leaving
every other asset-table entry and cached source unchanged — but it clears the
*entire* processed set rather than removing only that module's entries. -/
theorem c9_invalidate_amended :
    ∀ cfg st path an, assetNameFromFilePath cfg path = .ok an →
      invalidate cfg st path = .ok { st with
          output := mapDelete st.output an,
          processedModules := [],
          externalSources := mapDelete st.externalSources path } ∧
      (∀ k v, ¬(k = an) → (((k, v) ∈ mapDelete st.output an) ↔ ((k, v) ∈ st.output))) ∧
      (∀ k f, ¬(k = path) →
          (((k, f) ∈ mapDelete st.externalSources path) ↔ ((k, f) ∈ st.externalSources))) := by
  intro cfg st path an h
  refine ⟨?_, ?_, ?_⟩
  · unfold invalidate
    rw [h]
  · intro k v hk
    simp [mapDelete, List.mem_filter, hk]
  · intro k f hk
    simp [mapDelete, List.mem_filter, hk]

/-- Claim C9 witness: the amended statement applied to the concrete two-module
state. -/
theorem c9_invalidate_amended_witness :
    invalidate c9Cfg c9State "/p/agent/a.js" = .ok { c9State with
        output := mapDelete c9State.output "/agent/a.js",
        processedModules := [],
        externalSources := mapDelete c9State.externalSources "/p/agent/a.js" } ∧
    (("/agent/b.js", "bb") ∈ mapDelete c9State.output "/agent/a.js" ↔
      ("/agent/b.js", "bb") ∈ c9State.output) :=
  ⟨(c9_invalidate_amended c9Cfg c9State "/p/agent/a.js" "/agent/a.js" rfl).1,
   (c9_invalidate_amended c9Cfg c9State "/p/agent/a.js" "/agent/a.js" rfl).2.1
     "/agent/b.js" "bb" (by decide)⟩

/-! ## Claim about entrypoint derivation -/

theorem strMk_append (a b : List Char) : String.mk a ++ String.mk b = String.mk (a ++ b) :=
  rfl

/-- Replacing the last two characters of a string ending in `.ts` by `js` is
the same as replacing its `.ts` suffix by `.js`. -/
theorem ts_suffix_swap (o : String) (h : strEndsWith o ".ts" = true) :
    strTake o (o.length - 2) ++ "js" = strTake o (o.length - 3) ++ ".js" := by
  obtain ⟨od⟩ := o
  unfold strEndsWith at h
  rw [List.isSuffixOf_iff_suffix] at h
  obtain ⟨pre, hpre⟩ := h
  have hd : od = pre ++ ['.', 't', 's'] := by
    have : (".ts" : String).data = ['.', 't', 's'] := rfl
    rw [this] at hpre
    exact hpre.symm
  subst hd
  unfold strTake
  have hlen : (String.mk (pre ++ ['.', 't', 's'])).length = pre.length + 3 := by
    simp [String.length]
  rw [hlen]
  have h2 : pre.length + 3 - 2 = pre.length + 1 := by omega
  have h3 : pre.length + 3 - 3 = pre.length := by omega
  rw [h2, h3]
  have htake1 : (pre ++ ['.', 't', 's']).take (pre.length + 1) = pre ++ ['.'] := by
    rw [List.take_append_eq_append_take]
    simp
  have htake0 : (pre ++ ['.', 't', 's']).take pre.length = pre := by
    rw [List.take_append_eq_append_take]
    simp
  rw [htake1, htake0]
  show String.mk (pre ++ ['.']) ++ String.mk ['j', 's'] = String.mk pre ++ String.mk ['.', 'j', 's']
  rw [strMk_append, strMk_append]
  simp

/-- Claim C10: for every build or watch invocation, when the entrypoint
(joined to the project root when relative) does not start with the project
root, the pipeline fails with `entrypoint must be inside the project root`
before any compilation work runs (the compile continuation is arbitrary and
unused); otherwise the derived output asset name is the input with the
project-root prefix removed and a trailing `.ts` replaced by `.js`. -/
theorem c10_entrypoint_guard :
    (∀ (α : Type) projectRoot entrypoint (compileAndBundle : EntrypointName → Except String α),
        strStartsWith (if isAbsolutePath entrypoint then entrypoint
            else posixJoin2 projectRoot entrypoint) projectRoot = false →
        buildPipeline projectRoot entrypoint compileAndBundle =
          .error "entrypoint must be inside the project root") ∧
    (∀ projectRoot entrypoint en, deriveEntrypoint projectRoot entrypoint = .ok en →
        strStartsWith en.input projectRoot = true ∧
        en.input = (if isAbsolutePath entrypoint then entrypoint
            else posixJoin2 projectRoot entrypoint) ∧
        (strEndsWith (strDrop en.input projectRoot.length) ".ts" = true →
            en.output = strTake (strDrop en.input projectRoot.length)
              ((strDrop en.input projectRoot.length).length - 3) ++ ".js") ∧
        (strEndsWith (strDrop en.input projectRoot.length) ".ts" = false →
            en.output = strDrop en.input projectRoot.length)) := by
  constructor
  · intro α projectRoot entrypoint compileAndBundle h
    unfold buildPipeline deriveEntrypoint
    simp only [h, Bool.false_eq_true, if_false, Bool.not_false]
    rfl
  · intro projectRoot entrypoint en h
    unfold deriveEntrypoint at h
    by_cases hs : strStartsWith (if isAbsolutePath entrypoint then entrypoint
        else posixJoin2 projectRoot entrypoint) projectRoot
    · simp only [hs, Bool.not_true, Bool.false_eq_true, if_false] at h
      injection h with h
      subst h
      refine ⟨hs, rfl, ?_, ?_⟩
      · intro hts
        simp only [hts, if_pos rfl]
        exact ts_suffix_swap _ hts
      · intro hts
        simp [hts]
    · simp [hs] at h

/-- Claim C10 witness: a rejected entrypoint outside the project root (with an
arbitrary continuation never reached) and an accepted relative `.ts`
entrypoint with its derived output name. -/
theorem c10_entrypoint_guard_witness :
    buildPipeline "/p" "/q/x.ts" (fun e => Except.ok e.output) =
      .error "entrypoint must be inside the project root" ∧
    strStartsWith (EntrypointName.mk "/p/agent/index.ts" "/agent/index.js").input "/p" = true :=
  ⟨c10_entrypoint_guard.1 String "/p" "/q/x.ts" (fun e => Except.ok e.output) (by decide),
   (c10_entrypoint_guard.2 "/p" "agent/index.ts"
      (EntrypointName.mk "/p/agent/index.ts" "/agent/index.js") (by rfl)).1⟩

/-! ## Claim C6: idempotence of repeated bundling -/

/-- Claim C6 (code bug): on a project with a JSON dependency, the first
`bundle` pass succeeds, but a second pass over the same bundler — no input
having changed — throws instead of returning the same bundle string: the
rewrite phase keys on the `.json` asset-name suffix, so it feeds the already
synthesized ECMAScript module text back into `JSON.parse`, which fails. -/
theorem c6_second_pass_throws :
    ∃ bundle st1, bundlePass c6Cfg 10 c6Program c6State0 = some (.ok (bundle, st1)) ∧
      bundlePass c6Cfg 10 c6Program st1 = some (.error .fatal) :=
  ⟨_, _, rfl, rfl⟩

/-! ## Claim C2: the serialized bundle format -/

theorem strEndsWith_append (x s : String) : strEndsWith (x ++ s) s = true := by
  unfold strEndsWith
  rw [List.isSuffixOf_iff_suffix]
  show s.data <:+ x.data ++ s.data
  exact List.suffix_append _ _

theorem strAppend_cancel_right {x y s : String} (h : x ++ s = y ++ s) : x = y := by
  obtain ⟨xd⟩ := x
  obtain ⟨yd⟩ := y
  obtain ⟨sd⟩ := s
  have hd : xd ++ sd = yd ++ sd := congrArg String.data h
  have := List.append_cancel_right hd
  rw [this]

theorem buildNamesGo_append (hasMap isEntry : String → Bool) (xs ys acc : List String) :
    buildNamesGo hasMap isEntry acc (xs ++ ys) =
      buildNamesGo hasMap isEntry (buildNamesGo hasMap isEntry acc xs) ys := by
  induction xs generalizing acc with
  | nil => simp [buildNamesGo]
  | cons n rest ih => simp only [List.cons_append, buildNamesGo]; exact ih _

theorem buildNamesGo_no_entry (hasMap isEntry : String → Bool) (L acc : List String)
    (h : ∀ n ∈ L, isEntry n = false) :
    buildNamesGo hasMap isEntry acc L = acc ++ L.flatMap (pairOf hasMap) := by
  induction L generalizing acc with
  | nil => simp [buildNamesGo]
  | cons n rest ih =>
    have hn : isEntry n = false := h n (by simp)
    simp only [buildNamesGo, hn, Bool.false_eq_true, if_false]
    by_cases hm : hasMap (n ++ ".map")
    · simp only [hm, if_true, List.insertIdx_length_self]
      have hlen : acc.length + 1 = (acc ++ [n ++ ".map"]).length := by simp
      rw [hlen, List.insertIdx_length_self]
      rw [ih _ (fun x hx => h x (by simp [hx]))]
      simp [pairOf, hm]
    · simp only [hm, Bool.false_eq_true, if_false, List.insertIdx_length_self]
      rw [ih _ (fun x hx => h x (by simp [hx]))]
      simp [pairOf, hm]

theorem buildNamesGo_entry_cons (hasMap isEntry : String → Bool) (n : String)
    (rest acc : List String) (h : isEntry n = true) :
    buildNamesGo hasMap isEntry acc (n :: rest) =
      buildNamesGo hasMap isEntry (pairOf hasMap n ++ acc) rest := by
  simp only [buildNamesGo, h, if_true]
  by_cases hm : hasMap (n ++ ".map")
  · simp [pairOf, hm, List.insertIdx]
  · simp [pairOf, hm, List.insertIdx]

theorem single_entry_decomp {p : String → Bool} {L : List String} (h : L.countP p ≤ 1) :
    (∀ x ∈ L, p x = false) ∨
      ∃ pre e rest, L = pre ++ e :: rest ∧ p e = true ∧
        (∀ x ∈ pre, p x = false) ∧ (∀ x ∈ rest, p x = false) := by
  induction L with
  | nil => left; simp
  | cons a L ih =>
    rw [List.countP_cons] at h
    by_cases hpa : p a
    · right
      have hz : L.countP p = 0 := by
        rw [if_pos hpa] at h
        omega
      refine ⟨[], a, L, by simp, hpa, by simp, ?_⟩
      intro x hx
      by_contra hc
      have hpos : 0 < L.countP p := List.countP_pos_iff.mpr ⟨x, hx, by simpa using hc⟩
      omega
    · have h2 : L.countP p ≤ 1 := by
        rw [if_neg hpa] at h
        omega
      rcases ih h2 with hall | ⟨pre, e, rest, hL, hpe, hpre, hrest⟩
      · left
        intro x hx
        rcases List.mem_cons.mp hx with hx | hx
        · subst hx; simpa using hpa
        · exact hall x hx
      · right
        refine ⟨a :: pre, e, rest, by simp [hL], hpe, ?_, hrest⟩
        intro x hx
        rcases List.mem_cons.mp hx with hx | hx
        · subst hx; simpa using hpa
        · exact hpre x hx

theorem mem_flatMap_pairOf {hasMap : String → Bool} {L : List String} {k : String} :
    k ∈ L.flatMap (pairOf hasMap) ↔
      (k ∈ L ∨ ∃ n ∈ L, hasMap (n ++ ".map") = true ∧ k = n ++ ".map") := by
  rw [List.mem_flatMap]
  constructor
  · rintro ⟨n, hn, hk⟩
    unfold pairOf at hk
    rcases List.mem_append.mp hk with hk | hk
    · by_cases hm : hasMap (n ++ ".map")
      · right
        refine ⟨n, hn, hm, ?_⟩
        rw [if_pos hm] at hk
        simpa using hk
      · rw [if_neg hm] at hk
        simp at hk
    · left
      have hkn : k = n := by simpa using hk
      rw [hkn]
      exact hn
  · rintro (hk | ⟨n, hn, hm, hk⟩)
    · exact ⟨k, hk, List.mem_append.mpr (Or.inr (by simp [pairOf]))⟩
    · refine ⟨n, hn, List.mem_append.mpr (Or.inl ?_)⟩
      rw [if_pos hm]
      simp [hk]

theorem flatMap_pairOf_nodup (hasMap : String → Bool) (L : List String)
    (hnd : L.Nodup) (hnm : ∀ n ∈ L, strEndsWith n ".map" = false) :
    (L.flatMap (pairOf hasMap)).Nodup := by
  induction L with
  | nil => simp
  | cons n rest ih =>
    rw [List.flatMap_cons]
    have hn : strEndsWith n ".map" = false := hnm n (by simp)
    have hnotin : n ∉ rest := (List.nodup_cons.mp hnd).1
    refine List.Nodup.append ?_ (ih (List.nodup_cons.mp hnd).2 (fun x hx => hnm x (by simp [hx]))) ?_
    · unfold pairOf
      by_cases hm : hasMap (n ++ ".map")
      · rw [if_pos hm]
        refine List.nodup_cons.mpr ⟨?_, List.nodup_singleton n⟩
        intro hc
        have hc2 : n ++ ".map" = n := by simpa using hc
        have := strEndsWith_append n ".map"
        rw [hc2, hn] at this
        cases this
      · rw [if_neg hm]
        simp
    · intro k hk1 hk2
      rcases mem_flatMap_pairOf.mp hk2 with hk2 | ⟨m, hmr, hmm, hkm⟩
      · have hkend : strEndsWith k ".map" = false := hnm k (by simp [hk2])
        rcases List.mem_append.mp hk1 with hk1 | hk1
        · by_cases hm : hasMap (n ++ ".map")
          · rw [if_pos hm] at hk1
            have : k = n ++ ".map" := by simpa using hk1
            rw [this, strEndsWith_append] at hkend
            cases hkend
          · rw [if_neg hm] at hk1
            simp at hk1
        · have : k = n := by simpa using hk1
          rw [this] at hk2
          exact hnotin hk2
      · rcases List.mem_append.mp hk1 with hk1 | hk1
        · by_cases hm : hasMap (n ++ ".map")
          · rw [if_pos hm] at hk1
            have h1 : k = n ++ ".map" := by simpa using hk1
            have h2 : n = m := strAppend_cancel_right (by rw [← h1, ← hkm])
            rw [h2] at hnotin
            exact hnotin hmr
          · rw [if_neg hm] at hk1
            simp at hk1
        · have h1 : k = n := by simpa using hk1
          have := hn
          rw [← h1, hkm, strEndsWith_append] at this
          cases this

theorem join_cons (x : String) (xs : List String) :
    String.join (x :: xs) = x ++ String.join xs := by
  have key : ∀ (l : List String) (a : String),
      List.foldl (fun r s => r ++ s) a l = a ++ String.join l := by
    intro l
    induction l with
    | nil =>
      intro a
      exact (String.append_empty a).symm
    | cons b l ih =>
      intro a
      show List.foldl (fun r s => r ++ s) (a ++ b) l = a ++ String.join (b :: l)
      have hj : String.join (b :: l) = b ++ String.join l := by
        show List.foldl (fun r s => r ++ s) ("" ++ b) l = b ++ String.join l
        have hb : ("" : String) ++ b = b := rfl
        rw [hb, ih b]
      rw [ih (a ++ b), hj, String.append_assoc]
  exact key xs x

theorem intercalate_go_spec (s : String) (bs : List String) (acc : String) :
    String.intercalate.go acc s bs = acc ++ String.join (bs.map (fun b => s ++ b)) := by
  induction bs generalizing acc with
  | nil =>
    exact (String.append_empty acc).symm
  | cons b bs ih =>
    show String.intercalate.go (acc ++ s ++ b) s bs = _
    rw [ih, List.map_cons, join_cons]
    simp [String.append_assoc]

theorem intercalate_eq_chunks (s : String) (names : List String) (get : String → String) :
    String.intercalate s (names.map get) =
      String.join (match names with
        | [] => []
        | n :: rest => get n :: rest.map (fun m => s ++ get m)) := by
  cases names with
  | nil => rfl
  | cons n rest =>
    show String.intercalate.go (get n) s (rest.map get) = _
    rw [intercalate_go_spec, join_cons, List.map_map]
    rfl

theorem manifestChunk_eq (st : BundlerState) (name : String) :
    manifestChunk st name = specManifestLine st name := by
  unfold manifestChunk specManifestLine
  cases mapGet st.modules name <;> rfl

theorem payload_eq_intercalate (st : BundlerState) (names : List String) :
    String.join (payloadChunks st names) =
      String.intercalate "\n✄\n" (names.map (fun n => (mapGet st.output n).getD "")) := by
  rw [intercalate_eq_chunks]
  cases names <;> rfl

theorem buildNames_characterization (hasMap isEntry : String → Bool) (L : List String)
    (hcount : L.countP isEntry ≤ 1) :
    buildNamesGo hasMap isEntry [] L =
      (L.filter isEntry).flatMap (pairOf hasMap) ++
        (L.filter (fun n => !isEntry n)).flatMap (pairOf hasMap) := by
  rcases single_entry_decomp hcount with hall | ⟨pre, e, rest, hL, hpe, hpre, hrest⟩
  · rw [buildNamesGo_no_entry _ _ _ _ hall]
    have h1 : L.filter isEntry = [] :=
      List.filter_eq_nil_iff.mpr (fun a ha => by simp [hall a ha])
    have h2 : L.filter (fun n => !isEntry n) = L :=
      List.filter_eq_self.mpr (fun a ha => by simp [hall a ha])
    rw [h1, h2]
    simp
  · subst hL
    rw [buildNamesGo_append, buildNamesGo_no_entry _ _ _ _ hpre,
        buildNamesGo_entry_cons _ _ _ _ _ hpe, buildNamesGo_no_entry _ _ _ _ hrest]
    have h1 : (pre ++ e :: rest).filter isEntry = [e] := by
      rw [List.filter_append, List.filter_cons,
          List.filter_eq_nil_iff.mpr (fun a ha => by simp [hpre a ha]),
          List.filter_eq_nil_iff.mpr (fun a ha => by simp [hrest a ha])]
      simp [hpe]
    have h2 : (pre ++ e :: rest).filter (fun n => !isEntry n) = pre ++ rest := by
      rw [List.filter_append, List.filter_cons,
          List.filter_eq_self.mpr (fun a ha => by simp [hpre a ha]),
          List.filter_eq_self.mpr (fun a ha => by simp [hrest a ha])]
      simp [hpe]
    rw [h1, h2]
    simp [List.flatMap_append, List.append_assoc]

theorem serializeAssets_eq_spec (st : BundlerState) (entry : String)
    (h : emissionOrder st entry = specEmissionOrder st entry) :
    serializeAssets st entry = specSerialize st entry := by
  show "📦\n" ++ String.join ((emissionOrder st entry).map (fun n => manifestChunk st n)) ++
      "✄\n" ++ String.join (payloadChunks st (emissionOrder st entry)) = _
  rw [h, payload_eq_intercalate]
  show _ = "📦\n" ++
      String.join ((specEmissionOrder st entry).map (fun n => specManifestLine st n)) ++ "✄\n" ++
      String.intercalate "\n✄\n"
        ((specEmissionOrder st entry).map (fun n => (mapGet st.output n).getD ""))
  simp only [manifestChunk_eq]

theorem specEmissionOrder_flatMap (st : BundlerState) (entry : String) :
    specEmissionOrder st entry =
      (((sortStrings (mapKeys st.output)).filter (fun n => !strEndsWith n ".map")).filter
          (fun n => (posixNormalize n = posixNormalize entry : Bool)) ++
        ((sortStrings (mapKeys st.output)).filter (fun n => !strEndsWith n ".map")).filter
          (fun n => !(posixNormalize n = posixNormalize entry : Bool))).flatMap
        (pairOf (fun m =>
          ((sortStrings (mapKeys st.output)).filter (fun n => strEndsWith n ".map")).contains m)) := by
  show _ ++ _ = _
  rw [List.flatMap_append]

theorem specEmissionOrder_nodup (st : BundlerState) (entry : String)
    (hnd : (mapKeys st.output).Nodup) :
    (specEmissionOrder st entry).Nodup := by
  rw [specEmissionOrder_flatMap]
  have hsortnd : (sortStrings (mapKeys st.output)).Nodup := sortStrings_nodup hnd
  have hprimnd : ((sortStrings (mapKeys st.output)).filter
      (fun n => !strEndsWith n ".map")).Nodup := hsortnd.filter _
  apply flatMap_pairOf_nodup
  · apply List.Nodup.append (hprimnd.filter _) (hprimnd.filter _)
    intro a ha hb
    have h1 := (List.mem_filter.mp ha).2
    have h2 := (List.mem_filter.mp hb).2
    rw [h1] at h2
    cases h2
  · intro n hn
    rcases List.mem_append.mp hn with hn | hn
    · have := (List.mem_filter.mp (List.mem_filter.mp hn).1).2
      simpa using this
    · have := (List.mem_filter.mp (List.mem_filter.mp hn).1).2
      simpa using this

theorem specEmissionOrder_mem (st : BundlerState) (entry : String)
    (hmaps : ∀ m ∈ mapKeys st.output, strEndsWith m ".map" = true →
        ∃ p ∈ mapKeys st.output, m = p ++ ".map" ∧ strEndsWith p ".map" = false) :
    ∀ k, k ∈ specEmissionOrder st entry ↔ k ∈ mapKeys st.output := by
  intro k
  rw [specEmissionOrder_flatMap, mem_flatMap_pairOf]
  have hmemL : ∀ x, (x ∈ ((sortStrings (mapKeys st.output)).filter
        (fun n => !strEndsWith n ".map")).filter
          (fun n => (posixNormalize n = posixNormalize entry : Bool)) ++
        ((sortStrings (mapKeys st.output)).filter (fun n => !strEndsWith n ".map")).filter
          (fun n => !(posixNormalize n = posixNormalize entry : Bool))) ↔
      (x ∈ mapKeys st.output ∧ strEndsWith x ".map" = false) := by
    intro x
    rw [List.mem_append, List.mem_filter, List.mem_filter, List.mem_filter, List.mem_filter,
      mem_sortStrings]
    constructor
    · rintro (⟨⟨hx, he⟩, _⟩ | ⟨⟨hx, he⟩, _⟩) <;> exact ⟨hx, by simpa using he⟩
    · rintro ⟨hx, he⟩
      by_cases hp : (posixNormalize x = posixNormalize entry : Bool)
      · exact Or.inl ⟨⟨hx, by simp [he]⟩, by simpa using hp⟩
      · exact Or.inr ⟨⟨hx, by simp [he]⟩, by simpa using hp⟩
  constructor
  · rintro (hk | ⟨n, hn, hm, hk⟩)
    · exact ((hmemL k).mp hk).1
    · have := List.mem_of_elem_eq_true hm
      rw [List.mem_filter, mem_sortStrings] at this
      rw [hk]
      exact this.1
  · intro hk
    by_cases hke : strEndsWith k ".map"
    · right
      obtain ⟨p, hp, hkp, hpe⟩ := hmaps k hk hke
      refine ⟨p, (hmemL p).mpr ⟨hp, hpe⟩, ?_, hkp⟩
      apply List.elem_eq_true_of_mem
      rw [List.mem_filter, mem_sortStrings]
      exact ⟨by rw [← hkp]; exact hk, by rw [← hkp]; simpa using hke⟩
    · left
      exact (hmemL k).mpr ⟨hk, by simpa using hke⟩

/-- Claim C2: for every asset table and module table (well-formed: unique
names, every `.map` asset paired with a non-map primary) and at most one
primary matching the entrypoint's normalized output name, the serialized
bundle is exactly the spec's envelope — the `📦` code point plus newline, one
`"<utf8-byte-length> <name>\n"` manifest line per asset in emission order each
followed by one `"↻ <alias>\n"` line per alias of the corresponding module,
the closing `"✄\n"`, and the asset contents joined with `"\n✄\n"` and no
separator before the first asset — where the emission order places each
existing `<name>.map` immediately before its primary, moves the entrypoint's
normalized output name (with its map) to the very front, and lists all other
primaries in lexicographic order; the order covers every asset exactly once. -/
theorem c2_bundle_serialization :
    ∀ st entry,
      (mapKeys st.output).Nodup →
      (∀ m ∈ mapKeys st.output, strEndsWith m ".map" = true →
          ∃ p ∈ mapKeys st.output, m = p ++ ".map" ∧ strEndsWith p ".map" = false) →
      ((sortStrings (mapKeys st.output)).filter (fun n => !strEndsWith n ".map")).countP
          (fun n => (posixNormalize n = posixNormalize entry : Bool)) ≤ 1 →
      serializeAssets st entry = specSerialize st entry ∧
      (emissionOrder st entry).Nodup ∧
      (∀ k, k ∈ emissionOrder st entry ↔ k ∈ mapKeys st.output) := by
  intro st entry hnd hmaps hcount
  have horder : emissionOrder st entry = specEmissionOrder st entry := by
    exact buildNames_characterization _ _ _ hcount
  exact ⟨serializeAssets_eq_spec st entry horder,
    horder ▸ specEmissionOrder_nodup st entry hnd,
    fun k => horder ▸ specEmissionOrder_mem st entry hmaps k⟩

/-- Claim C2 witness: the characterization applied to a concrete three-asset
table (the entrypoint's JS, its source map, and one aliased module). -/
theorem c2_bundle_serialization_witness :
    serializeAssets c2State "/agent/index.js" = specSerialize c2State "/agent/index.js" ∧
    (∀ k, k ∈ emissionOrder c2State "/agent/index.js" ↔ k ∈ mapKeys c2State.output) :=
  ⟨(c2_bundle_serialization c2State "/agent/index.js" (by decide) (by decide) (by decide)).1,
   (c2_bundle_serialization c2State "/agent/index.js" (by decide) (by decide) (by decide)).2.2⟩

end FridaCompile
